import Mathlib

/-!
Verification development for the `pretty` value formatter.

The Go sources are shallowly embedded: Go strings are modeled as Lean
strings over their characters (the inputs of interest are ASCII, where Go's
byte-wise operations and Lean's character-wise operations agree), machine
integers as `Int`/`Nat` with explicit truncation where the code truncates,
the per-call cycle-detection session as explicit state threaded through the
recursion, and the ambient wall clock (`time.Now()`) as an explicit `now`
parameter.  Terminal styling (lipgloss) is an external collaborator: styles
are rendered as plain text (the `ColorNever` rendering; escape sequences are
discounted by `lipgloss.Width`, so styling never affects layout decisions),
and `lipgloss.Width` of plain text is the character count.  The JSON parser
(`encoding/json`, also external) is modeled as an oracle parameter
`jsonParse : String → Option GoVal`.
-/

namespace Pretty

abbrev Addr := Nat

/-- Go byte-string slicing `s[:n]` (ASCII model: one char per byte). -/
def strTake (n : Nat) (s : String) : String := ⟨s.data.take n⟩

/-- Go byte-string slicing `s[n:]`. -/
def strDrop (n : Nat) (s : String) : String := ⟨s.data.drop n⟩

/-- Go `len(s)` for a string (ASCII model). -/
def strLen (s : String) : Nat := s.data.length

/-- `lipgloss.Width` of escape-free text: the number of characters. -/
def visWidth (s : String) : Nat := s.data.length

/-- Number of occurrences of a character in a string. -/
def countChar (c : Char) (s : String) : Nat := s.data.count c

/-- `strings.Repeat("  ", n)`, the two-space indentation prefix. -/
def indentOf (n : Nat) : String := String.join (List.replicate n "  ")

/-- FNV-1a offset basis (`hash/fnv`, 64-bit). -/
def fnvOffsetBasis : Nat := 14695981039346656037

/-- FNV-1a prime (`hash/fnv`, 64-bit). -/
def fnvPrime : Nat := 1099511628211

/-- 64-bit FNV-1a over a byte sequence (`fnv.New64a`; arithmetic mod 2^64). -/
def fnv64a (bytes : List Nat) : Nat :=
  bytes.foldl (fun h b => ((h ^^^ (b % 256)) * fnvPrime) % (2 ^ 64)) fnvOffsetBasis

/-- The eight little-endian bytes of a 64-bit value (`binary.LittleEndian`). -/
def u64Bytes (n : Nat) : List Nat := (List.range 8).map (fun i => (n >>> (8 * i)) % 256)

/-- The standard base64 alphabet (`encoding/base64.StdEncoding`). -/
def b64Char (n : Nat) : Char :=
  "ABCDEFGHIJKLMNOPQRSTUVWXYZabcdefghijklmnopqrstuvwxyz0123456789+/".data.getD n 'A'

/-- Standard base64 encoding of a byte list, with padding. -/
def b64EncodeGroups : List Nat → List Char
  | [] => []
  | [b0] => [b64Char (b0 >>> 2), b64Char ((b0 % 4) <<< 4), '=', '=']
  | [b0, b1] =>
      [b64Char (b0 >>> 2), b64Char (((b0 % 4) <<< 4) + (b1 >>> 4)),
       b64Char ((b1 % 16) <<< 2), '=']
  | b0 :: b1 :: b2 :: rest =>
      b64Char (b0 >>> 2) :: b64Char (((b0 % 4) <<< 4) + (b1 >>> 4)) ::
      b64Char (((b1 % 16) <<< 2) + (b2 >>> 6)) :: b64Char (b2 % 64) ::
      b64EncodeGroups rest

/-- `base64.StdEncoding.EncodeToString`. -/
def base64Encode (bytes : List Nat) : String := ⟨b64EncodeGroups bytes⟩

/-- `strings.TrimRight(s, "=")`. -/
def trimEq (s : String) : String := ⟨(s.data.reverse.dropWhile (· = '=')).reverse⟩

/-- `formatCyclePointer`: hash the pointer (FNV-1a over its 8 LE bytes),
base64-encode the hash's 8 LE bytes, strip `=` padding, and prefix `#`
(comment style; rendered plain in this embedding).  The gamut color choice is
`hash mod 9` and does not appear in escape-free output. -/
def formatCyclePointer (ptr : Nat) : String :=
  let hashedPtr := fnv64a (u64Bytes (ptr % 2 ^ 64))
  "#" ++ trimEq (base64Encode (u64Bytes hashedPtr))

/-- The pointer-gamut palette index chosen for a cycle pointer
(`pointerGamut[hashedPtr % 9]`). -/
def cycleGamutIndex (ptr : Nat) : Nat := fnv64a (u64Bytes (ptr % 2 ^ 64)) % 9

/-- `isUUID`: 16 bytes, version nibble `(data[6] >> 4) & 0x0f` in `[1,5]`,
variant bits `(data[8] >> 6) & 0x03 == 2`. -/
def isUUID (data : List Nat) : Bool :=
  if data.length ≠ 16 then false
  else
    let version := (data.getD 6 0 >>> 4) % 16
    if version < 1 ∨ version > 5 then false
    else (data.getD 8 0 >>> 6) % 4 == 2

/-- Lower-case hex digit. -/
def hexDigit (n : Nat) : Char := "0123456789abcdef".data.getD n '0'

/-- `%02x` of one byte. -/
def byteHex (b : Nat) : String := ⟨[hexDigit ((b / 16) % 16), hexDigit (b % 16)]⟩

/-- `%x` of a byte slice: concatenated two-digit hex of each byte. -/
def bytesHex (bs : List Nat) : String := String.join (bs.map byteHex)

/-- `formatUUID`: `xxxxxxxx-xxxx-xxxx-xxxx-xxxxxxxxxxxx` over the 16 bytes
(the gamut color `fnv64a(data) % 9` is styling only). -/
def formatUUID (data : List Nat) : String :=
  bytesHex (data.take 4) ++ "-" ++ bytesHex ((data.drop 4).take 2) ++ "-" ++
  bytesHex ((data.drop 6).take 2) ++ "-" ++ bytesHex ((data.drop 8).take 2) ++ "-" ++
  bytesHex ((data.drop 10).take 6)

/-- The pointer-gamut palette index chosen for a UUID (`fnv64a(data) % 9`). -/
def uuidGamutIndex (data : List Nat) : Nat := fnv64a data % 9

/-- One hex-digit character, as in `isUUIDString`. -/
def isHexChar (c : Char) : Bool :=
  (('0' ≤ c ∧ c ≤ '9') ∨ ('a' ≤ c ∧ c ≤ 'f') ∨ ('A' ≤ c ∧ c ≤ 'F') : Bool)

/-- `isUUIDString`: length 36, dashes at 8/13/18/23, hex everywhere else. -/
def isUUIDString (str : String) : Bool :=
  if strLen str ≠ 36 then false
  else if ¬(str.data.getD 8 ' ' = '-' ∧ str.data.getD 13 ' ' = '-' ∧
            str.data.getD 18 ' ' = '-' ∧ str.data.getD 23 ' ' = '-') then false
  else
    [((str.data.drop 0).take 8), ((str.data.drop 9).take 4), ((str.data.drop 14).take 4),
     ((str.data.drop 19).take 4), ((str.data.drop 24).take 12)].all
      (fun seg => seg.all isHexChar)

/-- `truncateString`: center-ellipsis truncation against `MaxStringLength`. -/
def truncateString (maxStringLength : Int) (str : String) : String :=
  if maxStringLength ≤ 0 ∨ (strLen str : Int) ≤ maxStringLength then str
  else
    let maxLen := maxStringLength.toNat
    if maxLen < 4 then strTake maxLen str
    else
      let contentLen := maxLen - 3
      let leftLen := contentLen / 2
      let rightLen := contentLen - leftLen
      if leftLen + rightLen ≥ strLen str then str
      else strTake leftLen str ++ "..." ++ strDrop (strLen str - rightLen) str

/-! ### Relative time formatter (the `TimeFormatter` component)

Instants are nanoseconds (as `Int`) since Go's zero time (January 1, year 1
UTC); the value `0` encodes the zero instant (`time.Time.IsZero`).
Durations are nanoseconds.  `float64` bucket divisions are modeled by exact
integer division, which agrees with the code throughout the ranges the
claims exercise. -/

/-- Nanoseconds per second (`time.Second`). -/
def nsPerSecond : Int := 1000000000

/-- Nanoseconds per minute (`time.Minute`). -/
def nsPerMinute : Int := 60 * nsPerSecond

/-- Nanoseconds per hour (`time.Hour`). -/
def nsPerHour : Int := 60 * nsPerMinute

/-- The `TimeFormatter` configuration record. -/
structure TimeFormatter where
  now : Int
  secondThreshold : Int
  minuteThreshold : Int
  hourThreshold : Int
  dayThreshold : Int
  weekThreshold : Int
  monthThreshold : Int
  friendlyPhrases : Bool
  futureFormat : String
  zeroString : String
  deriving DecidableEq

/-- `NewTimeFormatter` with its defaults; `wallClock` models the
`time.Now()` captured into the `Now` field at construction. -/
def newTimeFormatter (wallClock : Int) : TimeFormatter :=
  { now := wallClock
    secondThreshold := nsPerMinute
    minuteThreshold := nsPerHour
    hourThreshold := 24 * nsPerHour
    dayThreshold := 7 * 24 * nsPerHour
    weekThreshold := 30 * 24 * nsPerHour
    monthThreshold := 365 * 24 * nsPerHour
    friendlyPhrases := true
    futureFormat := "in %s"
    zeroString := "<zero>" }

/-- `fmt.Sprintf(template, arg)` for a template whose only verb is `%s`. -/
def sprintf1 (template arg : String) : String :=
  match template.splitOn "%s" with
  | [] => ""
  | [x] => x
  | x :: rest => x ++ arg ++ String.intercalate "%s" rest

/-- The friendly phrases that already encode direction and are returned
as-is by `Format`. -/
def directionalPhrases : List String :=
  ["just now", "yesterday", "tomorrow", "last week", "next week",
   "last month", "next month", "last year", "next year"]

/-- `TimeFormatter.Format`: relative-time phrase for instant `t`.
`wallClock` models the `time.Now()` consulted when the configured reference
is the zero instant. -/
def tfFormat (tf : TimeFormatter) (wallClock : Int) (t : Int) : String :=
  if t = 0 then tf.zeroString
  else
    let now := if tf.now = 0 then wallClock else tf.now
    let diff := now - t
    let absDiff : Int := |diff|
    let isPast := diff > 0
    let (result, isPast) :=
      if absDiff < tf.secondThreshold then
        let seconds := (absDiff / nsPerSecond).toNat
        if tf.friendlyPhrases ∧ seconds < 10 then ("just now", true)
        else if seconds = 1 then ("1 second", isPast)
        else (toString seconds ++ " seconds", isPast)
      else if absDiff < tf.minuteThreshold then
        let minutes := (absDiff / nsPerMinute).toNat
        if minutes = 1 then ("1 minute", isPast)
        else (toString minutes ++ " minutes", isPast)
      else if absDiff < tf.hourThreshold then
        let hours := (absDiff / nsPerHour).toNat
        if hours = 1 then ("1 hour", isPast)
        else (toString hours ++ " hours", isPast)
      else if absDiff < tf.dayThreshold then
        let days := (absDiff / (24 * nsPerHour)).toNat
        if tf.friendlyPhrases ∧ days = 1 then
          ((if isPast then "yesterday" else "tomorrow"), true)
        else if days = 1 then ("1 day", isPast)
        else (toString days ++ " days", isPast)
      else if absDiff < tf.weekThreshold then
        let weeks := (absDiff / (24 * 7 * nsPerHour)).toNat
        if tf.friendlyPhrases ∧ weeks = 1 then
          ((if isPast then "last week" else "next week"), true)
        else if weeks = 1 then ("1 week", isPast)
        else (toString weeks ++ " weeks", isPast)
      else if absDiff < tf.monthThreshold then
        let months := (absDiff / (24 * 30 * nsPerHour)).toNat
        if tf.friendlyPhrases ∧ months = 1 then
          ((if isPast then "last month" else "next month"), true)
        else if months = 1 then ("1 month", isPast)
        else (toString months ++ " months", isPast)
      else
        let years := (absDiff / (24 * 365 * nsPerHour)).toNat
        if tf.friendlyPhrases ∧ years = 1 then
          ((if isPast then "last year" else "next year"), true)
        else if years = 1 then ("1 year", isPast)
        else (toString years ++ " years", isPast)
    if tf.friendlyPhrases ∧ result ∈ directionalPhrases then result
    else if isPast then result ++ " ago"
    else sprintf1 tf.futureFormat result

/-- `Time(t)`: format with a freshly constructed default formatter whose
reference is the current wall clock. -/
def timeRelative (wallClock : Int) (t : Int) : String :=
  tfFormat (newTimeFormatter wallClock) wallClock t

/-- `time.Kitchen` (`"3:04PM"`) of an instant, in UTC. -/
def kitchenFormat (t : Int) : String :=
  let secsOfDay := ((t / nsPerSecond) % 86400).toNat
  let h24 := secsOfDay / 3600
  let m := (secsOfDay / 60) % 60
  let h12 := if h24 % 12 = 0 then 12 else h24 % 12
  toString h12 ++ ":" ++ (if m < 10 then "0" else "") ++ toString m ++
    (if h24 < 12 then "AM" else "PM")

/-- `Printer.formatTime`: humanized relative time, with a kitchen-clock
suffix when the absolute delta to now exceeds 30 minutes (styles render as
plain text in this embedding). -/
def formatTime (now t : Int) : String :=
  let formatted := timeRelative now t
  if t = 0 then formatted
  else if (30 * nsPerMinute : Int) < |t - now| then
    formatted ++ " " ++ kitchenFormat t
  else formatted

/-! ### Data model

`GoVal` is the shape of a runtime value as seen through `reflect`:
scalars, nil/non-nil pointers, slices and maps (reference-bearing, with a
heap address used as cycle-detection identity), value structs and arrays
(copied by value, fields/elements held inline), interface wrappers,
channels, `time.Time`, and `io.ReadCloser`.  A struct field is
`(name, isExported, declaredTypeIsInterfaceLike, value)` where the third
component records whether the declared field type is an interface or a
pointer to an interface (the only property `shouldOmitStructName` reads
from it).  Map keys are the comparable kinds `keyToString` distinguishes;
a non-scalar key is abstracted by its two renderings (`kother sortStr
dispStr`: its `keyToString` sort projection and its `formatMapKey`
display), since those are the only uses the code makes of it. -/

inductive ChanDir where
  | recvDir
  | sendDir
  | bothDir
  deriving DecidableEq

inductive MapKey where
  | kstr (s : String)
  | kint (n : Int)
  | kuint (n : Nat)
  | kfloat (g : String)
  | kbool (b : Bool)
  | kother (sortStr : String) (dispStr : String)
  deriving DecidableEq

inductive GoVal where
  | vstr (s : String)
  | vint (n : Int)
  | vuint (n : Nat)
  | vfloat (g : String)
  | vbool (b : Bool)
  | vtime (t : Int)
  | vptr (a : Option Addr)
  | vslice (a : Option Addr)
  | vmap (a : Option Addr)
  | viface (v : Option GoVal)
  | vstruct (name : String) (fields : List (String × Bool × Bool × GoVal))
  | varray (elemIsByte : Bool) (elems : List GoVal)
  | vchan (dir : ChanDir) (elemType : String)
  | vreadCloser

/-- Heap cell: what a reference-bearing identity points at.  A slice cell
records whether the static element type is `uint8` (the `[]byte` test in
`tryFormatAsUUID`). -/
inductive HeapCell where
  | cptr (v : GoVal)
  | cslice (elemIsByte : Bool) (elems : List GoVal)
  | cmap (entries : List (MapKey × GoVal))

abbrev Heap := List (Addr × HeapCell)

/-- Address lookup in the heap. -/
def heapLookup (h : Heap) (a : Addr) : Option HeapCell :=
  (h.find? (fun e => e.1 == a)).map (·.2)

mutual

/-- Structural weight of a value, used for the termination fuel bound. -/
def vsize : GoVal → Nat
  | .vstr s => 1 + s.data.length
  | .viface (some v) => 1 + vsize v
  | .vstruct _ fields => 1 + vsizeFields fields
  | .varray _ elems => 1 + vsizeList elems
  | _ => 1

/-- Summed weight of a value list. -/
def vsizeList : List GoVal → Nat
  | [] => 0
  | v :: vs => vsize v + vsizeList vs

/-- Summed weight of a field list. -/
def vsizeFields : List (String × Bool × Bool × GoVal) → Nat
  | [] => 0
  | (_, _, _, v) :: fs => vsize v + vsizeFields fs

end

/-- Per-call cycle-tracking state: the `visited` and `cycled` maps. -/
structure Session where
  visiting : List Addr
  cycled : List Addr
  deriving DecidableEq

/-- `p.cycled[ptr] = true`. -/
def markCycled (a : Addr) (s : Session) : Session :=
  if a ∈ s.cycled then s else { s with cycled := a :: s.cycled }

/-- `ColorMode`. -/
inductive ColorMode where
  | colorAuto
  | colorAlways
  | colorNever
  deriving DecidableEq

/-- The configuration fields of `Printer` that the formatting pass reads. -/
structure Printer where
  maxWidth : Int
  colorMode : ColorMode
  maxSliceLength : Int
  maxStringLength : Int
  maxKeysInline : Int
  deriving DecidableEq

/-- Everything ambient to one formatting pass: the configuration, the heap,
the wall clock, and the external JSON parser. -/
structure Ctx where
  p : Printer
  heap : Heap
  now : Int
  jsonParse : String → Option GoVal

/-! ### Compound single-line/multi-line layout -/

/-- The `compoundFormatter` accumulator. -/
structure CompoundFormatter where
  maxWidth : Int
  openBrace : String
  closeBrace : String
  typeName : String
  singleItems : List String
  multiItems : List String
  indent : Nat
  currentWidth : Nat
  exceedsWidth : Bool
  padBraces : Bool
  maxKeysInline : Int
  deriving DecidableEq

/-- `newCompoundFormatter`. -/
def newCompoundFormatter (maxWidth : Int) (openBrace closeBrace typeName : String)
    (indent : Nat) (padBraces : Bool) (maxKeysInline : Int) : CompoundFormatter :=
  { maxWidth, openBrace, closeBrace, typeName
    singleItems := [], multiItems := [], indent
    currentWidth := visWidth (typeName ++ openBrace) + (if padBraces then 1 else 0)
    exceedsWidth := false, padBraces, maxKeysInline }

/-- `compoundFormatter.addItem`. -/
def CompoundFormatter.addItem (cf : CompoundFormatter) (singleItem multiItem : String) :
    CompoundFormatter :=
  let cf :=
    if cf.exceedsWidth then cf
    else
      let itemWidth := visWidth singleItem + (if 0 < cf.singleItems.length then 2 else 0)
      let cw := cf.currentWidth + itemWidth
      if cf.maxKeysInline > 0 ∧ (cf.singleItems.length : Int) ≥ cf.maxKeysInline then
        { cf with currentWidth := cw, exceedsWidth := true }
      else if (cw + visWidth cf.closeBrace : Int) > cf.maxWidth then
        { cf with currentWidth := cw, exceedsWidth := true }
      else { cf with currentWidth := cw, singleItems := cf.singleItems ++ [singleItem] }
  { cf with multiItems := cf.multiItems ++ [multiItem] }

/-- `compoundFormatter.formatMultiLine`. -/
def CompoundFormatter.formatMultiLine (cf : CompoundFormatter) : String :=
  cf.typeName ++ cf.openBrace ++ "\n" ++
  String.intercalate ",\n" (cf.multiItems.map (fun item => indentOf (cf.indent + 1) ++ item)) ++
  "\n" ++ indentOf cf.indent ++ cf.closeBrace

/-- `compoundFormatter.format`. -/
def CompoundFormatter.format (cf : CompoundFormatter) : String :=
  if cf.multiItems.length = 0 then cf.typeName ++ cf.openBrace ++ cf.closeBrace
  else if cf.exceedsWidth ∨ cf.singleItems.length ≠ cf.multiItems.length then
    cf.formatMultiLine
  else
    cf.typeName ++ cf.openBrace ++ (if cf.padBraces then " " else "") ++
    String.intercalate ", " cf.singleItems ++
    (if cf.padBraces then " " else "") ++ cf.closeBrace

/-- The single-line width contribution of a list of items: each item's
visible width plus 2 per `", "` separator. -/
def singleWidthSum (singles : List String) : Nat :=
  (singles.map visWidth).sum + 2 * (singles.length - 1)

/-- The width charged before any item: type name, open brace, and one
space when padded. -/
def cfBase (openBrace typeName : String) (padBraces : Bool) : Nat :=
  visWidth (typeName ++ openBrace) + (if padBraces then 1 else 0)

/-- The compound formatter built by adding each `(single, multi)` item in
order. -/
def cfBuild (maxWidth : Int) (openBrace closeBrace typeName : String) (indent : Nat)
    (padBraces : Bool) (maxKeysInline : Int) (items : List (String × String)) :
    CompoundFormatter :=
  items.foldl (fun cf it => cf.addItem it.1 it.2)
    (newCompoundFormatter maxWidth openBrace closeBrace typeName indent padBraces
      maxKeysInline)

/-- The accumulator state after processing `done` items without overflow. -/
def goodState (maxWidth : Int) (openBrace closeBrace typeName : String) (indent : Nat)
    (padBraces : Bool) (maxKeysInline : Int) (done : List (String × String)) :
    CompoundFormatter :=
  { maxWidth, openBrace, closeBrace, typeName
    singleItems := done.map Prod.fst, multiItems := done.map Prod.snd, indent
    currentWidth := cfBase openBrace typeName padBraces + singleWidthSum (done.map Prod.fst)
    exceedsWidth := false, padBraces, maxKeysInline }

/-- The layout-overflow condition: the max-inline-items limit is exceeded,
or the accumulated single-line width — base, items, 2 per separator — plus
the close brace exceeds the configured max width. -/
def xcond (maxWidth : Int) (openBrace closeBrace typeName : String) (padBraces : Bool)
    (maxKeysInline : Int) (done : List (String × String)) : Prop :=
  (maxKeysInline > 0 ∧ (done.length : Int) > maxKeysInline) ∨
  (0 < done.length ∧
    (cfBase openBrace typeName padBraces + singleWidthSum (done.map Prod.fst) +
      visWidth closeBrace : Int) > maxWidth)

/-! ### The recursive value formatter

`formatValueWithOptions` and its helpers.  Recursion is by fuel; the
recursive formatter itself is passed to the helpers as `recur`.  A
sufficiency theorem below shows the fuel bound used by `printGo` always
suffices, which is the termination argument. -/

/-- The type of the recursive formatting call
(`formatValueWithOptions` at fixed fuel): value, indent,
`includeStructNames`, session in; rendered text and session out. -/
abbrev RecFn := GoVal → Nat → Bool → Session → Option (String × Session)

/-- Session-threading map over a list (models sequential calls on the
shared mutable session). -/
def mapOptState (f : α → Session → Option (β × Session)) :
    List α → Session → Option (List β × Session)
  | [], s => some ([], s)
  | x :: xs, s =>
      match f x s with
      | none => none
      | some (y, s1) =>
          match mapOptState f xs s1 with
          | none => none
          | some (ys, s2) => some (y :: ys, s2)

/-- `byte(val.Index(i).Uint())` over every element: succeeds when all
elements are unsigned integers, truncating each to a byte. -/
def toBytes : List GoVal → Option (List Nat)
  | [] => some []
  | .vuint n :: rest => (toBytes rest).map ((n % 256) :: ·)
  | _ => none

/-- `tryFormatAsUUID` on a byte slice/array already fetched from the value:
the UUID text when the element type is `uint8` and the bytes pass `isUUID`. -/
def tryFormatAsUUIDBytes (elemIsByte : Bool) (elems : List GoVal) : Option String :=
  if !elemIsByte then none
  else
    match toBytes elems with
    | none => none
    | some data => if isUUID data then some (formatUUID data) else none

/-- `unwrapInterface`. -/
def unwrapIface : GoVal → GoVal
  | .viface (some v) => v
  | v => v

/-- `isSpecialHandledType`: the value's type is exactly `time.Time`. -/
def isTimeVal : GoVal → Bool
  | .vtime _ => true
  | _ => false

/-- `shouldOmitStructName`.  `fieldDecl = some b` models a non-nil
`fieldType` whose "is an interface or pointer-to-interface" test is `b`;
`none` models the map-key call site (`fieldType == nil`). -/
def shouldOmitStructName (heap : Heap) (keyOrFieldName : String) (v : GoVal)
    (fieldDecl : Option Bool) : Bool :=
  let actual := unwrapIface v
  let structTypeName : Option String :=
    match actual with
    | .vstruct nm _ => some nm
    | .vptr (some a) =>
        match heapLookup heap a with
        | some (.cptr (.vstruct nm _)) => some nm
        | _ => none
    | _ => none
  match structTypeName, fieldDecl with
  | none, _ => false
  | some _, some declIsIface => !declIsIface
  | some nm, none => keyOrFieldName == nm

/-- `keyToString`: the sort projection of a map key. -/
def keyToString : MapKey → String
  | .kstr s => s
  | .kint n => toString n
  | .kuint n => toString n
  | .kfloat g => g
  | .kbool b => if b then "true" else "false"
  | .kother sortStr _ => sortStr

/-- `formatMapKey`: string keys are truncated and shown unquoted in field
style; scalar keys render like the corresponding scalar value; non-scalar
keys carry their rendering. -/
def formatMapKey (p : Printer) : MapKey → String
  | .kstr s => truncateString p.maxStringLength s
  | .kint n => toString n
  | .kuint n => toString n
  | .kfloat g => g
  | .kbool b => if b then "true" else "false"
  | .kother _ dispStr => dispStr

/-- Lexicographic `≤` on character lists by code point (Go's byte-wise
string ordering, in the ASCII model). -/
def charListLe : List Char → List Char → Bool
  | [], _ => true
  | _ :: _, [] => false
  | a :: as, b :: bs =>
      if a.toNat < b.toNat then true
      else if b.toNat < a.toNat then false
      else charListLe as bs

/-- Go's `≤` on strings: byte-wise lexicographic. -/
def strLe (a b : String) : Bool := charListLe a.data b.data

/-- `sortMapKeys`: sort by the `keyToString` projection (`sort.Slice`
guarantees exactly sortedness with respect to the comparator). -/
def sortMapKeys (keys : List MapKey) : List MapKey :=
  List.insertionSort (fun a b => strLe (keyToString a) (keyToString b) = true) keys

/-- Map entries sorted by the key projection (`val.MapKeys()` sorted by
`sortMapKeys`, each paired with its `val.MapIndex`). -/
def sortMapEntries (entries : List (MapKey × GoVal)) : List (MapKey × GoVal) :=
  List.insertionSort (fun a b => strLe (keyToString a.1) (keyToString b.1) = true) entries

/-- `formatChan`. -/
def formatChanStr : ChanDir → String → String
  | .recvDir, t => "<-chan " ++ t
  | .sendDir, t => "chan<- " ++ t
  | .bothDir, t => "chan " ++ t

/-- Double-quoted, truncated string rendering (the generic string case). -/
def quoteTrunc (p : Printer) (str : String) : String :=
  "\"" ++ truncateString p.maxStringLength str ++ "\""

/-- The syntactic pre-check of `isJSON`: length at least 2 and the trimmed
text is brace- or bracket-delimited. -/
def quickJSONCheck (str : String) : Bool :=
  if strLen str < 2 then false
  else
    let trimmed := str.trim
    ((trimmed.startsWith "\x7b" ∧ trimmed.endsWith "\x7d") ∨
     (trimmed.startsWith "[" ∧ trimmed.endsWith "]") : Bool)

/-- Two formatting passes for one value — once at depth 0 for the
single-line candidate, once at `indent + 1` for the multi-line fallback —
with the session threaded through both. -/
def pairFmt (recur : RecFn) (names : Bool) (v : GoVal) (indent : Nat) (st : Session) :
    Option ((String × String) × Session) :=
  match recur v 0 names st with
  | none => none
  | some (sv, st1) =>
      match recur v (indent + 1) names st1 with
      | none => none
      | some (mv, st2) => some ((sv, mv), st2)

/-- One struct field's `name: value` (single-line, multi-line) pair, with
the time-type and interface-field struct-name-elision special cases. -/
def structFieldLine (ctx : Ctx) (recur : RecFn) (indent : Nat)
    (f : String × Bool × Bool × GoVal) (st : Session) :
    Option ((String × String) × Session) :=
  match (if ¬ isTimeVal f.2.2.2 ∧
      shouldOmitStructName ctx.heap f.1 f.2.2.2 (some f.2.2.1) then
      pairFmt recur false f.2.2.2 indent st
    else pairFmt recur true f.2.2.2 indent st) with
  | none => none
  | some (pair, st2) =>
      some ((f.1 ++ ": " ++ pair.1, f.1 ++ ": " ++ pair.2), st2)

/-- `formatStruct`. -/
def formatStructF (ctx : Ctx) (recur : RecFn) (name : String)
    (fields : List (String × Bool × Bool × GoVal)) (indent : Nat)
    (includeTypeName : Bool) (s : Session) : Option (String × Session) :=
  let typName := if includeTypeName then name else ""
  if fields.length = 0 then some (typName ++ "\x7b\x7d", s)
  else
    match mapOptState (structFieldLine ctx recur indent)
      (fields.filter (fun f => f.2.1)) s with
    | none => none
    | some (items, s') =>
        some ((items.foldl (fun cf (it : String × String) => cf.addItem it.1 it.2)
          (newCompoundFormatter ctx.p.maxWidth "\x7b" "\x7d" typName indent true
            ctx.p.maxKeysInline)).format, s')

/-- One map entry's (single-line, multi-line) value renderings, including
the struct-name-elision special case for string keys. -/
def formatMapValuePair (ctx : Ctx) (recur : RecFn) (k : MapKey) (mv : GoVal)
    (indent : Nat) (st : Session) : Option ((String × String) × Session) :=
  match k with
  | .kstr ks =>
      if isTimeVal mv then pairFmt recur true mv indent st
      else if shouldOmitStructName ctx.heap ks mv none then
        match unwrapIface mv with
        | .vstruct nm fields =>
            (match formatStructF ctx recur nm fields 0 false st with
             | none => none
             | some (sv, st1) =>
                 match formatStructF ctx recur nm fields (indent + 1) false st1 with
                 | none => none
                 | some (mvs, st2) => some ((sv, mvs), st2))
        | _ => pairFmt recur true mv indent st
      else pairFmt recur true mv indent st
  | _ => pairFmt recur true mv indent st

/-- One map entry's `key: value` (single-line, multi-line) pair. -/
def mapEntryLine (ctx : Ctx) (recur : RecFn) (indent : Nat)
    (kv : MapKey × GoVal) (st : Session) : Option ((String × String) × Session) :=
  match formatMapValuePair ctx recur kv.1 kv.2 indent st with
  | none => none
  | some (pair, st2) =>
      some ((formatMapKey ctx.p kv.1 ++ ": " ++ pair.1,
             formatMapKey ctx.p kv.1 ++ ": " ++ pair.2), st2)

/-- `formatMap` (on the entries of a non-nil map cell). -/
def formatMapF (ctx : Ctx) (recur : RecFn) (entries : List (MapKey × GoVal))
    (indent : Nat) (s : Session) : Option (String × Session) :=
  if entries.length = 0 then some ("\x7b\x7d", s)
  else
    match mapOptState (mapEntryLine ctx recur indent) (sortMapEntries entries) s with
    | none => none
    | some (items, s') =>
        some ((items.foldl (fun cf (it : String × String) => cf.addItem it.1 it.2)
          (newCompoundFormatter ctx.p.maxWidth "\x7b" "\x7d" "" indent true
            ctx.p.maxKeysInline)).format, s')

/-- One truncated-slice element line: the element rendered at the inner
indent, prefixed with that indent's spaces. -/
def elemLine (recur : RecFn) (nextIndent : Nat) (e : GoVal) (st : Session) :
    Option (String × Session) :=
  match recur e nextIndent true st with
  | none => none
  | some (r, st') => some (indentOf nextIndent ++ r, st')

/-- `formatTruncatedSlice`, exposed as the list of comma-joined lines
(`parts`) it builds. -/
def formatTruncatedSliceParts (ctx : Ctx) (recur : RecFn) (elems : List GoVal)
    (indent : Nat) (totalLength : Nat) (s : Session) :
    Option (List String × Session) :=
  let showCount := max (ctx.p.maxSliceLength / 2).toNat 1
  let nextIndent := indent + 1
  let indentStr := indentOf nextIndent
  match mapOptState (elemLine recur nextIndent) (elems.take (min showCount totalLength)) s with
  | none => none
  | some (leadParts, s1) =>
      let omitted : Int := (totalLength : Int) - 2 * (showCount : Int)
      let midParts := if omitted > 0 then
          [indentStr ++ "... " ++ toString omitted ++ " more elements ..."] else []
      let startIdx := max (totalLength - showCount) showCount
      match mapOptState (elemLine recur nextIndent) (elems.drop startIdx) s1 with
      | none => none
      | some (tailParts, s2) =>
          some (leadParts ++ midParts ++ tailParts ++
                [indentStr ++ "// len() = " ++ toString totalLength], s2)

/-- `formatTruncatedSlice`: the joined multi-line form. -/
def formatTruncatedSliceF (ctx : Ctx) (recur : RecFn) (elems : List GoVal)
    (indent : Nat) (totalLength : Nat) (s : Session) : Option (String × Session) :=
  match formatTruncatedSliceParts ctx recur elems indent totalLength s with
  | none => none
  | some (parts, s') =>
      some ("[\n" ++ String.intercalate ",\n" parts ++ "\n" ++ indentOf indent ++ "]", s')

/-- `formatSlice` (elements of a non-nil slice, or of an array). -/
def formatSliceF (ctx : Ctx) (recur : RecFn) (elems : List GoVal) (indent : Nat)
    (s : Session) : Option (String × Session) :=
  if elems.length = 0 then some ("[]", s)
  else if ctx.p.maxSliceLength > 0 ∧ (elems.length : Int) > ctx.p.maxSliceLength then
    formatTruncatedSliceF ctx recur elems indent elems.length s
  else
    match mapOptState (pairFmt recur true · indent ·) elems s with
    | none => none
    | some (items, s') =>
        some ((items.foldl (fun cf (it : String × String) => cf.addItem it.1 it.2)
          (newCompoundFormatter ctx.p.maxWidth "[" "]" "" indent false 0)).format, s')

/-- The cycle-detection identity of a value (`val.Pointer()` when the kind
is a non-nil pointer, map, or slice; `0`, i.e. none, otherwise). -/
def refAddr : GoVal → Option Addr
  | .vptr (some a) => some a
  | .vslice (some a) => some a
  | .vmap (some a) => some a
  | _ => none

/-- The body of `formatValueWithOptions` after the cycle check: renders the
value, also reporting whether the UUID byte-sequence fast path was taken
(which in the source returns without the cycle-tag append).  Heap lookups
that fail (impossible through `reflect`) render as `invalid`. -/
def formatBody (ctx : Ctx) (recur : RecFn) (v : GoVal) (indent : Nat)
    (includeStructNames : Bool) (s : Session) : Option (String × Bool × Session) :=
  match v with
  | .vreadCloser => some ("<io.ReadCloser>", false, s)
  | .vtime t => some (formatTime ctx.now t, false, s)
  | .vstr str =>
      if isUUIDString str then some (str, false, s)
      else if quickJSONCheck str then
        match ctx.jsonParse str with
        | some parsed =>
            match recur parsed indent true s with
            | some (ps, s') => some ("JSON " ++ ps, false, s')
            | none => none
        | none => some (quoteTrunc ctx.p str, false, s)
      else some (quoteTrunc ctx.p str, false, s)
  | .vint n => some (toString n, false, s)
  | .vuint n => some (toString n, false, s)
  | .vfloat g => some (g, false, s)
  | .vbool b => some ((if b then "true" else "false"), false, s)
  | .vptr none => some ("nil", false, s)
  | .vptr (some a) =>
      match heapLookup ctx.heap a with
      | some (.cptr pv) =>
          (recur pv indent includeStructNames s).map (fun r => (r.1, false, r.2))
      | _ => some ("invalid", false, s)
  | .viface none => some ("nil", false, s)
  | .viface (some iv) =>
      (recur iv indent includeStructNames s).map (fun r => (r.1, false, r.2))
  | .vslice none => some ("[]", false, s)
  | .vslice (some a) =>
      match heapLookup ctx.heap a with
      | some (.cslice isByte elems) =>
          match tryFormatAsUUIDBytes isByte elems with
          | some u => some (u, true, s)
          | none => (formatSliceF ctx recur elems indent s).map (fun r => (r.1, false, r.2))
      | _ => some ("invalid", false, s)
  | .varray isByte elems =>
      match tryFormatAsUUIDBytes isByte elems with
      | some u => some (u, true, s)
      | none => (formatSliceF ctx recur elems indent s).map (fun r => (r.1, false, r.2))
  | .vmap none => some ("\x7b\x7d", false, s)
  | .vmap (some a) =>
      match heapLookup ctx.heap a with
      | some (.cmap entries) =>
          (formatMapF ctx recur entries indent s).map (fun r => (r.1, false, r.2))
      | _ => some ("invalid", false, s)
  | .vstruct nm fields =>
      (formatStructF ctx recur nm fields indent includeStructNames s).map
        (fun r => (r.1, false, r.2))
  | .vchan dir t => some (formatChanStr dir t, false, s)

/-- `formatValueWithOptions`: the cycle check and frame discipline around
`formatBody`.  A revisited identity is marked cycled and rendered as the
back-reference token without descending; otherwise the identity is added
to `visiting` for the body and removed on exit, and the cycle tag is
appended when the identity was found cycled (except on the UUID fast
path).  Fuel exhaustion yields `none`. -/
def formatF (ctx : Ctx) : Nat → GoVal → Nat → Bool → Session → Option (String × Session)
  | 0, _, _, _, _ => none
  | fuel + 1, v, indent, includeStructNames, s =>
    match refAddr v with
    | some a =>
        if a ∈ s.visiting then
          some ("→" ++ formatCyclePointer a, markCycled a s)
        else
          match formatBody ctx (formatF ctx fuel) v indent includeStructNames
              { s with visiting := a :: s.visiting } with
          | none => none
          | some (str, skipTag, s2) =>
              let str2 := if !skipTag ∧ a ∈ s2.cycled then str ++ formatCyclePointer a else str
              some (str2, { s2 with visiting := s2.visiting.erase a })
    | none =>
        match formatBody ctx (formatF ctx fuel) v indent includeStructNames s with
        | some (str, _, s2) => some (str, s2)
        | none => none

/-- Summed weight of a map-entry list's values. -/
def vsizeEntries : List (MapKey × GoVal) → Nat
  | [] => 0
  | (_, v) :: es => vsize v + vsizeEntries es

/-- Weight of a heap cell's contents. -/
def cellWeight : HeapCell → Nat
  | .cptr v => vsize v + 1
  | .cslice _ es => vsizeList es + 1
  | .cmap entries => vsizeEntries entries + 1

/-- Total weight of the heap. -/
def heapWeight (h : Heap) : Nat := (h.map (fun e => cellWeight e.2)).sum

/-- A bound strictly above the weight of any value stored in the heap. -/
def bigK (h : Heap) : Nat := heapWeight h + 1

/-- The heap's addresses, deduplicated. -/
def heapAddrsD (h : Heap) : List Addr := (h.map Prod.fst).dedup

/-- Number of heap addresses not currently being visited. -/
def unvisited (h : Heap) (vis : List Addr) : Nat :=
  ((heapAddrsD h).filter (fun a => a ∉ vis)).length

/-- The fuel measure: enough fuel for a frame whenever
`measureM heap visiting v ≤ fuel`. -/
def measureM (h : Heap) (vis : List Addr) (v : GoVal) : Nat :=
  unvisited h vis * bigK h + vsize v + 1

/-- The fuel `Print` hands the formatter: the measure at an empty session. -/
def printFuel (h : Heap) (v : GoVal) : Nat := measureM h [] v

/-- `Printer.Print`: nil renders as the null token; otherwise format with a
fresh session at depth 0.  (Margin wrapping, a pure lipgloss text layout of
the finished string, is external to the formatting engine and elided.) -/
def printGo (p : Printer) (heap : Heap) (now : Int)
    (jsonParse : String → Option GoVal) (v : Option GoVal) : String :=
  match v with
  | none => "nil"
  | some v =>
      match formatF ⟨p, heap, now, jsonParse⟩ (printFuel heap v) v 0 true ⟨[], []⟩ with
      | some (str, _) => str
      | none => ""

/-- The default configuration built by `New()`. -/
def defaultPrinter : Printer :=
  { maxWidth := 100, colorMode := .colorAuto, maxSliceLength := 20
    maxStringLength := 0, maxKeysInline := 0 }

/-- A JSON oracle for inputs containing no JSON-parseable strings. -/
def noJson : String → Option GoVal := fun _ => none

/-! ### The `Printer` struct with its receiver effects

For the copy-on-write claims the `Printer` struct is modeled with all its
fields, including the session fields `visited`/`cycled` (Go maps, whose nil
state is `none`).  Each method is modeled as a function returning the pair
`(state of the receiver after the call, returned Printer value)`, which
makes receiver mutation observable. -/

/-- The full `Printer` struct (styles, being lipgloss data the formatting
pass treats as opaque renderers, are not carried). -/
structure GoPrinter where
  maxWidth : Int
  colorMode : ColorMode
  maxSliceLength : Int
  maxStringLength : Int
  maxKeysInline : Int
  margin : Int × Int × Int × Int
  visited : Option (List Addr)
  cycled : Option (List Addr)
  deriving DecidableEq

/-- `New()`. -/
def goNew : GoPrinter :=
  { maxWidth := 100, colorMode := .colorAuto, maxSliceLength := 20
    maxStringLength := 0, maxKeysInline := 0, margin := (0, 0, 0, 0)
    visited := none, cycled := none }

/-- `WithMaxWidth`: `(receiver after, returned)`. -/
def withMaxWidth (p : GoPrinter) (width : Int) : GoPrinter × GoPrinter :=
  (p, { p with maxWidth := width })

/-- `WithColorMode`. -/
def withColorMode (p : GoPrinter) (mode : ColorMode) : GoPrinter × GoPrinter :=
  (p, { p with colorMode := mode })

/-- `WithMaxSliceLength`. -/
def withMaxSliceLength (p : GoPrinter) (maxLen : Int) : GoPrinter × GoPrinter :=
  (p, { p with maxSliceLength := maxLen })

/-- `WithMaxStringLength`. -/
def withMaxStringLength (p : GoPrinter) (maxLen : Int) : GoPrinter × GoPrinter :=
  (p, { p with maxStringLength := maxLen })

/-- `WithMargin`: assigns into the receiver's `Margin` array and returns
the receiver itself. -/
def withMargin (p : GoPrinter) (margin : List Int) : GoPrinter × GoPrinter :=
  let p' :=
    match margin with
    | [m0] => { p with margin := (m0, m0, m0, m0) }
    | [m0, m1] => { p with margin := (m0, m1, m0, m1) }
    | [m0, m1, m2] => { p with margin := (m0, m1, m2, m0) }
    | [m0, m1, m2, m3] => { p with margin := (m0, m1, m2, m3) }
    | _ => p
  (p', p')

/-- The configuration fields a formatting pass reads. -/
def configOf (p : GoPrinter) : Printer :=
  { maxWidth := p.maxWidth, colorMode := p.colorMode
    maxSliceLength := p.maxSliceLength, maxStringLength := p.maxStringLength
    maxKeysInline := p.maxKeysInline }

/-- `Printer.Print` with its receiver effect: a nil argument returns the
null token untouched; otherwise fresh `visited`/`cycled` maps are assigned
into the receiver, the value is formatted, and (per the deferred `clear`)
`visited` is left as an emptied non-nil map while `cycled` keeps its final
contents. -/
def goPrintCall (p : GoPrinter) (heap : Heap) (now : Int)
    (jsonParse : String → Option GoVal) (v : Option GoVal) : GoPrinter × String :=
  match v with
  | none => (p, "nil")
  | some v =>
      match formatF ⟨configOf p, heap, now, jsonParse⟩ (printFuel heap v) v 0 true
          ⟨[], []⟩ with
      | some (str, sOut) =>
          ({ p with visited := some [], cycled := some sOut.cycled }, str)
      | none => ({ p with visited := some [], cycled := some [] }, "")

/-- The 16 bytes of a version-4, RFC-variant UUID that is zero elsewhere. -/
def uuidV4Bytes : List Nat := [0, 0, 0, 0, 0, 0, 64, 0, 128, 0, 0, 0, 0, 0, 0, 0]

/-- 16 zero bytes: version nibble 0 (not a valid UUID). -/
def uuidV0Bytes : List Nat := List.replicate 16 0

/-- A heap holding one `[]byte` slice with the given bytes at address 1. -/
def heapOfByteSlice (bs : List Nat) : Heap := [(1, .cslice true (bs.map (.vuint ·)))]

/-- The default configuration at `ColorNever` (output carries no escapes). -/
def printerNever : Printer := { defaultPrinter with colorMode := .colorNever }

mutual

/-- No `time.Time` occurs in the value (timestamps are the one value shape
whose rendering reads the wall clock). -/
def timeFree : GoVal → Bool
  | .vtime _ => false
  | .viface (some v) => timeFree v
  | .vstruct _ fields => timeFreeFields fields
  | .varray _ elems => timeFreeList elems
  | _ => true

/-- `timeFree` over a value list. -/
def timeFreeList : List GoVal → Bool
  | [] => true
  | v :: vs => timeFree v && timeFreeList vs

/-- `timeFree` over a field list. -/
def timeFreeFields : List (String × Bool × Bool × GoVal) → Bool
  | [] => true
  | (_, _, _, v) :: fs => timeFree v && timeFreeFields fs

end

/-- `timeFree` over map entries. -/
def timeFreeEntries : List (MapKey × GoVal) → Bool
  | [] => true
  | (_, v) :: es => timeFree v && timeFreeEntries es

/-- `timeFree` over a heap cell's contents. -/
def cellTimeFree : HeapCell → Bool
  | .cptr v => timeFree v
  | .cslice _ es => timeFreeList es
  | .cmap entries => timeFreeEntries entries

/-- Every value stored in the heap is time-free. -/
def heapTimeFree (h : Heap) : Bool := h.all (fun e => cellTimeFree e.2)

/-- Two recursive formatters agree on every time-free value. -/
def RecAgree (rec1 rec2 : RecFn) : Prop :=
  ∀ v ind nm s, timeFree v = true → rec1 v ind nm s = rec2 v ind nm s

/-- The default `ColorNever` configuration at a given max width. -/
def printerW (w : Int) : Printer := { printerNever with maxWidth := w }

/-- A heap holding the slice `[1, 2, 3, 4]` at address 1. -/
def sliceHeap1234 : Heap := [(1, .cslice false [.vint 1, .vint 2, .vint 3, .vint 4])]

/-- The default `ColorNever` configuration with `MaxSliceLength = 3`. -/
def printerM3 : Printer := { printerNever with maxSliceLength := 3 }

/-- A heap holding the slice `[1, 2, 3, 4, 5]` at address 1. -/
def sliceHeap5 : Heap :=
  [(1, .cslice false (([1, 2, 3, 4, 5] : List Int).map (.vint ·)))]

/-- A string-keyed map inserted in one native order. -/
def mapHeapA : Heap :=
  [(1, .cmap [(.kstr "zebra", .vint 1), (.kstr "alpha", .vint 2), (.kstr "beta", .vint 3)])]

/-- The same map in a different native iteration order. -/
def mapHeapB : Heap :=
  [(1, .cmap [(.kstr "beta", .vint 3), (.kstr "zebra", .vint 1), (.kstr "alpha", .vint 2)])]

/-- A heap with a single pointer cell that points back to itself
(`p := &p`-style self reference collapsed to the pointer graph). -/
def selfCycleHeap : Heap := [(1, .cptr (.vptr (some 1)))]

/-- Two pointer cells pointing at each other (a mutual cycle). -/
def mutualCycleHeap : Heap := [(1, .cptr (.vptr (some 2))), (2, .cptr (.vptr (some 1)))]

/-! ## Theorems -/

theorem strLen_append (a b : String) : strLen (a ++ b) = strLen a + strLen b := by
  simp [strLen, String.data_append]

theorem strLen_strTake (n : Nat) (s : String) : strLen (strTake n s) = min n (strLen s) := by
  simp [strLen, strTake]

theorem strLen_strDrop (n : Nat) (s : String) : strLen (strDrop n s) = strLen s - n := by
  simp [strLen, strDrop]

/-- **C5** — `truncateString` against `MaxStringLength = N`: for `N ≥ 4` and
a longer string, the result is the first `⌊(N−3)/2⌋` characters, a
3-character ellipsis, and the last `⌈(N−3)/2⌉` characters, of total length
exactly `N`; for `0 < N < 4` and a longer string, the first `N` characters
with no ellipsis; and for `N = 0` or a string of length at most `N`, the
string unchanged (so in every remaining case the computed split is a real
shortening). -/
theorem c5_string_truncation :
    (∀ (s : String) (N : Nat), 4 ≤ N → N < strLen s →
      truncateString (N : Int) s =
        strTake ((N - 3) / 2) s ++ "..." ++
          strDrop (strLen s - ((N - 3) - (N - 3) / 2)) s ∧
      strLen (strDrop (strLen s - ((N - 3) - (N - 3) / 2)) s) = (N - 3) - (N - 3) / 2 ∧
      strLen (truncateString (N : Int) s) = N) ∧
    (∀ (s : String) (N : Nat), 0 < N → N < 4 → N < strLen s →
      truncateString (N : Int) s = strTake N s) ∧
    (∀ (s : String) (N : Nat), N = 0 ∨ strLen s ≤ N → truncateString (N : Int) s = s) := by
  refine ⟨?_, ?_, ?_⟩
  · intro s N h4 hlen
    have hcond : ¬((N : Int) ≤ 0 ∨ (strLen s : Int) ≤ (N : Int)) := by
      push_neg
      constructor <;> [exact_mod_cast (by omega : 0 < N); exact_mod_cast hlen]
    have htoNat : ((N : Int)).toNat = N := Int.toNat_natCast N
    constructor
    · unfold truncateString
      rw [if_neg hcond, htoNat, if_neg (by omega : ¬ N < 4)]
      rw [if_neg (by omega : ¬ (N - 3) / 2 + ((N - 3) - (N - 3) / 2) ≥ strLen s)]
    constructor
    · rw [strLen_strDrop]; omega
    · unfold truncateString
      rw [if_neg hcond, htoNat, if_neg (by omega : ¬ N < 4)]
      rw [if_neg (by omega : ¬ (N - 3) / 2 + ((N - 3) - (N - 3) / 2) ≥ strLen s)]
      rw [strLen_append, strLen_append, strLen_strTake, strLen_strDrop]
      have : strLen "..." = 3 := rfl
      omega
  · intro s N h0 h4 hlen
    have hcond : ¬((N : Int) ≤ 0 ∨ (strLen s : Int) ≤ (N : Int)) := by
      push_neg; constructor <;> [exact_mod_cast h0; exact_mod_cast hlen]
    unfold truncateString
    rw [if_neg hcond, Int.toNat_natCast, if_pos h4]
  · intro s N h
    unfold truncateString
    rw [if_pos]
    rcases h with h | h
    · left; simp [h]
    · right; exact_mod_cast h

/-- Witness for C5 at concrete inputs: `"abcdefghij"` (length 10) with
`N = 5` truncates to `"a...j"` of length 5; with `N = 3` clips to `"abc"`;
with `N = 0` it is unchanged. -/
theorem c5_string_truncation_witness :
    truncateString ((5 : Nat) : Int) "abcdefghij" = "a...j" ∧
    strLen (truncateString ((5 : Nat) : Int) "abcdefghij") = 5 ∧
    truncateString ((3 : Nat) : Int) "abcdefghij" = "abc" ∧
    truncateString ((0 : Nat) : Int) "abcdefghij" = "abcdefghij" := by
  have h1 := c5_string_truncation.1 "abcdefghij" 5 (by decide) (by decide)
  have h2 := c5_string_truncation.2.1 "abcdefghij" 3 (by decide) (by decide) (by decide)
  have h3 := c5_string_truncation.2.2 "abcdefghij" 0 (Or.inl rfl)
  refine ⟨?_, ?_, ?_, ?_⟩
  · rw [h1.1]; decide
  · exact h1.2.2
  · rw [h2]; decide
  · exact h3

/-- **C9 counterexample** — the claim quantifies over *every* instant, but
the zero instant is rendered as the zero sentinel first: with reference
5 seconds after the zero instant (absolute difference under 10 seconds),
`Format` returns `"<zero>"`, not `"just now"`. -/
theorem c9_zero_instant_counterexample :
    |(5 * nsPerSecond : Int) - 0| < 10 * nsPerSecond ∧
    tfFormat (newTimeFormatter (5 * nsPerSecond)) (5 * nsPerSecond) 0 = "<zero>" ∧
    tfFormat (newTimeFormatter (5 * nsPerSecond)) (5 * nsPerSecond) 0 ≠ "just now" := by
  refine ⟨by decide, rfl, by decide⟩

/-- **C9 (amended)** — with friendly phrases enabled (the default
formatter) and a *non-zero* instant: when the absolute difference to the
reference is under 10 seconds the result is `"just now"`, regardless of
sign; and 45 seconds in the past yields `"45 seconds ago"`. -/
theorem c9_amended_friendly_time :
    (∀ (now t : Int), t ≠ 0 → |now - t| < 10 * nsPerSecond →
      tfFormat (newTimeFormatter now) now t = "just now") ∧
    (∀ (now t : Int), t ≠ 0 → now - t = 45 * nsPerSecond →
      tfFormat (newTimeFormatter now) now t = "45 seconds ago") := by
  constructor
  · intro now t ht habs
    have hlt : |now - t| < nsPerMinute := by
      simp only [nsPerSecond, nsPerMinute] at habs ⊢; omega
    have hsec : (|now - t| / nsPerSecond).toNat < 10 := by
      have h0 : (0 : Int) ≤ |now - t| := abs_nonneg _
      simp only [nsPerSecond] at habs ⊢; omega
    simp only [tfFormat, newTimeFormatter, if_neg ht, ite_self, true_and]
    rw [if_pos hlt, if_pos hsec]
    simp [directionalPhrases]
  · intro now t ht heq
    have h9 : nsPerSecond = 1000000000 := rfl
    have habs : |now - t| = 45 * nsPerSecond := by
      rw [heq]; exact abs_of_pos (by rw [h9]; omega)
    have hlt : |now - t| < nsPerMinute := by rw [habs]; decide
    have htlt : t < now := by rw [h9] at heq; omega
    simp only [tfFormat, newTimeFormatter, if_neg ht, ite_self, true_and]
    rw [if_pos hlt, habs]
    simp only [gt_iff_lt, sub_pos, htlt]
    decide

/-- Witness for C9 (amended) at concrete instants: 5 seconds before the
reference is `"just now"`, 45 seconds before is `"45 seconds ago"`. -/
theorem c9_amended_friendly_time_witness :
    tfFormat (newTimeFormatter (1000 * nsPerSecond)) (1000 * nsPerSecond)
      (995 * nsPerSecond) = "just now" ∧
    tfFormat (newTimeFormatter (1000 * nsPerSecond)) (1000 * nsPerSecond)
      (955 * nsPerSecond) = "45 seconds ago" := by
  constructor
  · exact c9_amended_friendly_time.1 (1000 * nsPerSecond) (995 * nsPerSecond)
      (by decide) (by decide)
  · exact c9_amended_friendly_time.2 (1000 * nsPerSecond) (955 * nsPerSecond)
      (by decide) (by decide)

/-- **C2 counterexample** — `WithMargin` is not copy-on-write: calling it
on a fresh `New()` printer assigns into the receiver's `Margin` array
(receiver state changes) and returns that same mutated printer rather than
a derived copy; moreover `Print` writes the session fields (`visited`,
`cycled`) of the printer it is invoked on. -/
theorem c2_withMargin_mutates_counterexample :
    (withMargin goNew [1]).1 ≠ goNew ∧
    (withMargin goNew [1]).2 = (withMargin goNew [1]).1 ∧
    (goPrintCall goNew [] 0 noJson (some (.vint 7))).1 ≠ goNew := by
  refine ⟨by decide, rfl, by decide⟩

/-- **C2 (amended)** — `WithMaxWidth`, `WithColorMode`, `WithMaxSliceLength`
and `WithMaxStringLength` are copy-on-write: the receiver is unchanged and
the result is a copy with only the one field replaced.  `WithMargin`
instead mutates its receiver and returns it.  `Print` never writes any
configuration field (max width, color mode, truncation limits, inline-key
limit, margin) of its receiver — it writes only the session fields. -/
theorem c2_amended_copy_on_write :
    (∀ (p : GoPrinter) (w : Int),
      (withMaxWidth p w).1 = p ∧ (withMaxWidth p w).2 = { p with maxWidth := w }) ∧
    (∀ (p : GoPrinter) (m : ColorMode),
      (withColorMode p m).1 = p ∧ (withColorMode p m).2 = { p with colorMode := m }) ∧
    (∀ (p : GoPrinter) (n : Int),
      (withMaxSliceLength p n).1 = p ∧
      (withMaxSliceLength p n).2 = { p with maxSliceLength := n }) ∧
    (∀ (p : GoPrinter) (n : Int),
      (withMaxStringLength p n).1 = p ∧
      (withMaxStringLength p n).2 = { p with maxStringLength := n }) ∧
    (∀ (p : GoPrinter) (m : List Int), (withMargin p m).1 = (withMargin p m).2) ∧
    (∀ (p : GoPrinter) (heap : Heap) (now : Int) (jp : String → Option GoVal)
        (v : Option GoVal),
      configOf (goPrintCall p heap now jp v).1 = configOf p ∧
      (goPrintCall p heap now jp v).1.margin = p.margin) := by
  refine ⟨fun p w => ⟨rfl, rfl⟩, fun p m => ⟨rfl, rfl⟩, fun p n => ⟨rfl, rfl⟩,
    fun p n => ⟨rfl, rfl⟩, fun p m => rfl, fun p heap now jp v => ?_⟩
  cases v with
  | none => exact ⟨rfl, rfl⟩
  | some v =>
      constructor <;> (simp only [goPrintCall]; split <;> rfl)

/-- **C8** — UUID byte-sequence detection: `isUUID` holds exactly when the
sequence has length 16, version nibble (bits 4–7 of byte 6) in `[1,5]`, and
variant bits (top 2 bits of byte 8) equal binary `10`; a 16-byte slice with
version nibble 0 renders as a normal sequence, while version 4 with variant
`10` renders as the canonical hex-dash UUID text (bypassing sequence
rendering, equally for a fixed-size byte array), and the color is chosen
from the pointer gamut by the FNV-1a hash of the bytes mod 9. -/
theorem c8_uuid_detection :
    (∀ data : List Nat,
      isUUID data = true ↔
        (data.length = 16 ∧
         1 ≤ (data.getD 6 0 >>> 4) % 16 ∧ (data.getD 6 0 >>> 4) % 16 ≤ 5 ∧
         (data.getD 8 0 >>> 6) % 4 = 2)) ∧
    isUUID uuidV0Bytes = false ∧
    isUUID uuidV4Bytes = true ∧
    printGo printerNever (heapOfByteSlice uuidV0Bytes) 0 noJson (some (.vslice (some 1))) =
      "[0, 0, 0, 0, 0, 0, 0, 0, 0, 0, 0, 0, 0, 0, 0, 0]" ∧
    printGo printerNever (heapOfByteSlice uuidV4Bytes) 0 noJson (some (.vslice (some 1))) =
      "00000000-0000-4000-8000-000000000000" ∧
    printGo printerNever [] 0 noJson (some (.varray true (uuidV4Bytes.map (.vuint ·)))) =
      "00000000-0000-4000-8000-000000000000" ∧
    uuidGamutIndex uuidV4Bytes = fnv64a uuidV4Bytes % 9 := by
  refine ⟨?_, by decide, by decide, by decide, by decide, by decide, rfl⟩
  intro data
  unfold isUUID
  split_ifs with h1
  · simp only [Bool.false_eq_true, false_iff]
    rintro ⟨h, -⟩
    exact h1 h
  · simp only []
    split_ifs with h2
    · simp only [Bool.false_eq_true, false_iff]
      rintro ⟨-, hv1, hv5, -⟩
      omega
    · simp only [beq_iff_eq]
      constructor
      · intro h
        exact ⟨by omega, by omega, by omega, h⟩
      · rintro ⟨-, -, -, h⟩
        exact h

/-- **C10** — nil slices and nil maps render as the empty-collection forms
`[]` and `{}` (identically to empty ones), both when wrapped in a non-nil
interface and when reached inside a composite, and never as the null
token; the null token is produced for nil pointers, nil interfaces, and a
nil top-level argument. -/
theorem c10_nil_collections :
    printGo printerNever [] 0 noJson (some (.vslice none)) = "[]" ∧
    printGo printerNever [] 0 noJson (some (.vmap none)) = "\x7b\x7d" ∧
    printGo printerNever [] 0 noJson (some (.viface (some (.vslice none)))) = "[]" ∧
    printGo printerNever [] 0 noJson (some (.viface (some (.vmap none)))) = "\x7b\x7d" ∧
    printGo printerNever [] 0 noJson
        (some (.vstruct "T" [("A", true, false, .vslice none),
                             ("B", true, false, .vmap none)])) =
      "T\x7b A: [], B: \x7b\x7d \x7d" ∧
    printGo printerNever [] 0 noJson (some (.vslice none)) ≠ "nil" ∧
    printGo printerNever [] 0 noJson (some (.vmap none)) ≠ "nil" ∧
    printGo printerNever [] 0 noJson (some (.vptr none)) = "nil" ∧
    printGo printerNever [] 0 noJson (some (.viface none)) = "nil" ∧
    printGo printerNever [] 0 noJson none = "nil" := by
  decide

theorem charListLe_total (as bs : List Char) :
    charListLe as bs = true ∨ charListLe bs as = true := by
  induction as generalizing bs with
  | nil => left; rfl
  | cons a as ih =>
      cases bs with
      | nil => right; rfl
      | cons b bs =>
          rcases Nat.lt_trichotomy a.toNat b.toNat with h | h | h
          · left; simp [charListLe, h]
          · rcases ih bs with h' | h'
            · left; simp [charListLe, h, h']
            · right; simp [charListLe, h, h']
          · right; simp [charListLe, h]

theorem charListLe_trans (as bs cs : List Char) (h1 : charListLe as bs = true)
    (h2 : charListLe bs cs = true) : charListLe as cs = true := by
  induction as generalizing bs cs with
  | nil => rfl
  | cons a as ih =>
      cases bs with
      | nil => simp [charListLe] at h1
      | cons b bs =>
          cases cs with
          | nil => simp [charListLe] at h2
          | cons c cs =>
              simp only [charListLe] at h1 h2 ⊢
              split_ifs at h1 h2 ⊢ <;> first | rfl | omega | exact ih bs cs h1 h2

theorem strLe_total (a b : String) : strLe a b = true ∨ strLe b a = true :=
  charListLe_total a.data b.data

theorem strLe_trans (a b c : String) (h1 : strLe a b = true) (h2 : strLe b c = true) :
    strLe a c = true :=
  charListLe_trans a.data b.data c.data h1 h2

/-- **C6** — map entries render in ascending lexicographic order of the
`keyToString` projection — strings project to themselves, signed/unsigned
integers to their decimal form, floats to their numeric form, booleans to
`"true"`/`"false"`, any other kind to its own formatted single-line
representation — regardless of native iteration order: the sorted key list
is a permutation of the input, pairwise ordered by the projection, and the
same map rendered from two different native orders yields the same output
with keys sorted. -/
theorem c6_map_key_sorting :
    (∀ keys : List MapKey,
      List.Sorted (fun a b => strLe (keyToString a) (keyToString b) = true)
        (sortMapKeys keys) ∧
      List.Perm (sortMapKeys keys) keys) ∧
    (∀ entries : List (MapKey × GoVal),
      List.Sorted (fun a b => strLe (keyToString a.1) (keyToString b.1) = true)
        (sortMapEntries entries) ∧
      List.Perm (sortMapEntries entries) entries) ∧
    (∀ s, keyToString (.kstr s) = s) ∧
    (∀ n : Int, keyToString (.kint n) = toString n) ∧
    (∀ n : Nat, keyToString (.kuint n) = toString n) ∧
    (∀ g, keyToString (.kfloat g) = g) ∧
    keyToString (.kbool true) = "true" ∧
    keyToString (.kbool false) = "false" ∧
    (∀ srt disp, keyToString (.kother srt disp) = srt) ∧
    printGo printerNever mapHeapA 0 noJson (some (.vmap (some 1))) =
      "\x7b alpha: 2, beta: 3, zebra: 1 \x7d" ∧
    printGo printerNever mapHeapB 0 noJson (some (.vmap (some 1))) =
      "\x7b alpha: 2, beta: 3, zebra: 1 \x7d" := by
  refine ⟨?_, ?_, fun s => rfl, fun n => rfl, fun n => rfl, fun g => rfl, rfl, rfl,
    fun srt disp => rfl, by decide, by decide⟩
  · intro keys
    haveI : IsTotal MapKey (fun a b => strLe (keyToString a) (keyToString b) = true) :=
      ⟨fun a b => strLe_total _ _⟩
    haveI : IsTrans MapKey (fun a b => strLe (keyToString a) (keyToString b) = true) :=
      ⟨fun a b c hab hbc => strLe_trans _ _ _ hab hbc⟩
    exact ⟨List.sorted_insertionSort _ _, List.perm_insertionSort _ _⟩
  · intro entries
    haveI : IsTotal (MapKey × GoVal)
        (fun a b => strLe (keyToString a.1) (keyToString b.1) = true) :=
      ⟨fun a b => strLe_total _ _⟩
    haveI : IsTrans (MapKey × GoVal)
        (fun a b => strLe (keyToString a.1) (keyToString b.1) = true) :=
      ⟨fun a b c hab hbc => strLe_trans _ _ _ hab hbc⟩
    exact ⟨List.sorted_insertionSort _ _, List.perm_insertionSort _ _⟩

theorem addItem_multiItems (cf : CompoundFormatter) (x y : String) :
    (cf.addItem x y).multiItems = cf.multiItems ++ [y] := by
  unfold CompoundFormatter.addItem
  simp only []
  split_ifs <;> rfl

theorem addItem_fixed (cf : CompoundFormatter) (x y : String) :
    (cf.addItem x y).openBrace = cf.openBrace ∧
    (cf.addItem x y).closeBrace = cf.closeBrace ∧
    (cf.addItem x y).typeName = cf.typeName ∧
    (cf.addItem x y).indent = cf.indent ∧
    (cf.addItem x y).padBraces = cf.padBraces ∧
    (cf.addItem x y).maxKeysInline = cf.maxKeysInline ∧
    (cf.addItem x y).maxWidth = cf.maxWidth := by
  unfold CompoundFormatter.addItem
  simp only []
  split_ifs <;> simp

theorem addItem_exceeds_mono (cf : CompoundFormatter) (x y : String)
    (h : cf.exceedsWidth = true) : (cf.addItem x y).exceedsWidth = true := by
  unfold CompoundFormatter.addItem
  simp only []
  split_ifs <;> simp_all

theorem foldl_addItem_multiItems (rest : List (String × String)) :
    ∀ cf : CompoundFormatter,
      (rest.foldl (fun cf it => cf.addItem it.1 it.2) cf).multiItems =
        cf.multiItems ++ rest.map Prod.snd := by
  induction rest with
  | nil => intro cf; simp
  | cons x rest ih =>
      intro cf
      simp only [List.foldl_cons, List.map_cons, ih, addItem_multiItems]
      simp

theorem foldl_addItem_fixed (rest : List (String × String)) :
    ∀ cf : CompoundFormatter,
      (rest.foldl (fun cf it => cf.addItem it.1 it.2) cf).openBrace = cf.openBrace ∧
      (rest.foldl (fun cf it => cf.addItem it.1 it.2) cf).closeBrace = cf.closeBrace ∧
      (rest.foldl (fun cf it => cf.addItem it.1 it.2) cf).typeName = cf.typeName ∧
      (rest.foldl (fun cf it => cf.addItem it.1 it.2) cf).indent = cf.indent ∧
      (rest.foldl (fun cf it => cf.addItem it.1 it.2) cf).padBraces = cf.padBraces := by
  induction rest with
  | nil => intro cf; simp
  | cons x rest ih =>
      intro cf
      simp only [List.foldl_cons]
      rcases ih (cf.addItem x.1 x.2) with ⟨h1, h2, h3, h4, h5⟩
      rcases addItem_fixed cf x.1 x.2 with ⟨g1, g2, g3, g4, g5, -, -⟩
      exact ⟨h1.trans g1, h2.trans g2, h3.trans g3, h4.trans g4, h5.trans g5⟩

theorem foldl_addItem_exceeds (rest : List (String × String)) :
    ∀ cf : CompoundFormatter, cf.exceedsWidth = true →
      (rest.foldl (fun cf it => cf.addItem it.1 it.2) cf).exceedsWidth = true := by
  induction rest with
  | nil => intro cf h; simpa using h
  | cons x rest ih =>
      intro cf h
      simp only [List.foldl_cons]
      exact ih _ (addItem_exceeds_mono cf x.1 x.2 h)

theorem singleWidthSum_append_singleton (singles : List String) (s : String) :
    singleWidthSum (singles ++ [s]) =
      singleWidthSum singles + visWidth s + (if 0 < singles.length then 2 else 0) := by
  cases singles with
  | nil => simp [singleWidthSum]
  | cons a l =>
      simp only [singleWidthSum, List.map_append, List.sum_append, List.length_append]
      simp
      omega

theorem singleWidthSum_le (a b : List String) :
    singleWidthSum a ≤ singleWidthSum (a ++ b) := by
  simp only [singleWidthSum, List.map_append, List.sum_append, List.length_append]
  omega

theorem xcond_mono (mw : Int) (ob cb tn : String) (pad : Bool) (mk : Int)
    (done e : List (String × String)) (h : xcond mw ob cb tn pad mk done) :
    xcond mw ob cb tn pad mk (done ++ e) := by
  rcases h with ⟨h1, h2⟩ | ⟨h1, h2⟩
  · left
    refine ⟨h1, ?_⟩
    rw [List.length_append]
    push_cast
    push_cast at h2
    omega
  · right
    have hle := singleWidthSum_le (done.map Prod.fst) (e.map Prod.fst)
    rw [← List.map_append] at hle
    refine ⟨by simp [List.length_append]; omega, ?_⟩
    push_cast at h2 ⊢
    omega

theorem addItem_goodState (mw : Int) (ob cb tn : String) (ind : Nat) (pad : Bool)
    (mk : Int) (done : List (String × String)) (x : String × String)
    (h : ¬ xcond mw ob cb tn pad mk (done ++ [x])) :
    (goodState mw ob cb tn ind pad mk done).addItem x.1 x.2 =
      goodState mw ob cb tn ind pad mk (done ++ [x]) := by
  have hlen : (done.map Prod.fst).length = done.length := List.length_map done Prod.fst
  have hK : ¬ (mk > 0 ∧ ((done.map Prod.fst).length : Int) ≥ mk) := by
    rintro ⟨hk1, hk2⟩
    refine h (Or.inl ⟨hk1, ?_⟩)
    rw [List.length_append]
    rw [hlen] at hk2
    simp only [List.length_singleton]
    push_cast
    omega
  have hW : ¬ ((cfBase ob tn pad + singleWidthSum (done.map Prod.fst) +
      (visWidth x.1 + (if 0 < (done.map Prod.fst).length then 2 else 0)) +
      visWidth cb : Int) > mw) := by
    intro hw
    refine h (Or.inr ⟨by simp [List.length_append], ?_⟩)
    rw [List.map_append]
    simp only [List.map_cons, List.map_nil]
    rw [singleWidthSum_append_singleton]
    rw [hlen] at hw
    push_cast at hw ⊢
    omega
  unfold goodState CompoundFormatter.addItem
  simp only [Bool.false_eq_true, if_false, reduceIte]
  rw [if_neg hK, if_neg (by simpa using hW)]
  simp only [CompoundFormatter.mk.injEq, List.map_append, List.map_cons, List.map_nil,
    singleWidthSum_append_singleton, true_and, and_true]
  omega

theorem foldl_goodState (mw : Int) (ob cb tn : String) (ind : Nat) (pad : Bool)
    (mk : Int) (rest : List (String × String)) :
    ∀ done, ¬ xcond mw ob cb tn pad mk (done ++ rest) →
      rest.foldl (fun cf it => cf.addItem it.1 it.2)
          (goodState mw ob cb tn ind pad mk done) =
        goodState mw ob cb tn ind pad mk (done ++ rest) := by
  induction rest with
  | nil => intro done h; simp
  | cons x rest ih =>
      intro done h
      have h1 : ¬ xcond mw ob cb tn pad mk (done ++ [x]) := by
        intro hx
        exact h (by simpa [List.append_assoc] using xcond_mono mw ob cb tn pad mk _ rest hx)
      simp only [List.foldl_cons]
      rw [addItem_goodState mw ob cb tn ind pad mk done x h1]
      have := ih (done ++ [x]) (by simpa [List.append_assoc] using h)
      simpa [List.append_assoc] using this

theorem addItem_triggers (mw : Int) (ob cb tn : String) (ind : Nat) (pad : Bool)
    (mk : Int) (done : List (String × String)) (x : String × String)
    (hx : xcond mw ob cb tn pad mk (done ++ [x]))
    (hd : ¬ xcond mw ob cb tn pad mk done) :
    ((goodState mw ob cb tn ind pad mk done).addItem x.1 x.2).exceedsWidth = true := by
  have hlen : (done.map Prod.fst).length = done.length := List.length_map done Prod.fst
  unfold goodState CompoundFormatter.addItem
  simp only [Bool.false_eq_true, if_false, reduceIte]
  by_cases hK : (mk > 0 ∧ ((done.map Prod.fst).length : Int) ≥ mk)
  · rw [if_pos hK]
  · rw [if_neg hK]
    have hW : ((cfBase ob tn pad + singleWidthSum (done.map Prod.fst) +
        (visWidth x.1 + (if 0 < (done.map Prod.fst).length then 2 else 0)) +
        visWidth cb : Int) > mw) := by
      rcases hx with ⟨hk1, hk2⟩ | ⟨-, hw⟩
      · exfalso
        rw [List.length_append] at hk2
        simp only [List.length_singleton] at hk2
        rw [hlen] at hK
        push_cast at hk2
        exact hK ⟨hk1, by omega⟩
      · rw [List.map_append] at hw
        simp only [List.map_cons, List.map_nil] at hw
        rw [singleWidthSum_append_singleton] at hw
        rw [hlen]
        push_cast at hw ⊢
        omega
    rw [if_pos (by simpa using hW)]

theorem foldl_exceeds (mw : Int) (ob cb tn : String) (ind : Nat) (pad : Bool)
    (mk : Int) (rest : List (String × String)) :
    ∀ done, xcond mw ob cb tn pad mk (done ++ rest) →
      ¬ xcond mw ob cb tn pad mk done →
      (rest.foldl (fun cf it => cf.addItem it.1 it.2)
          (goodState mw ob cb tn ind pad mk done)).exceedsWidth = true := by
  induction rest with
  | nil => intro done h hd; simp at h; exact absurd h hd
  | cons x rest ih =>
      intro done h hd
      simp only [List.foldl_cons]
      by_cases h1 : xcond mw ob cb tn pad mk (done ++ [x])
      · exact foldl_addItem_exceeds rest _ (addItem_triggers mw ob cb tn ind pad mk done x h1 hd)
      · rw [addItem_goodState mw ob cb tn ind pad mk done x h1]
        exact ih (done ++ [x]) (by simpa [List.append_assoc] using h) h1

theorem goodState_nil (mw : Int) (ob cb tn : String) (ind : Nat) (pad : Bool) (mk : Int) :
    goodState mw ob cb tn ind pad mk [] =
      newCompoundFormatter mw ob cb tn ind pad mk := by
  unfold goodState newCompoundFormatter singleWidthSum cfBase
  simp

/-- **C3 (amended)** — for every nonempty compound item list, the rendering
is single-line exactly when no max-inline-items limit is hit and the
accumulated single-line width — type name, open brace, one space when
padded, every item's width plus 2 per `", "` separator, and the close
brace — is at most `MaxWidth` (the `xcond` overflow condition is false);
otherwise it is the multi-line form.  At the boundary, the four-element
integer list `1,2,3,4` has single-line rendering `"[1, 2, 3, 4]"` of width
12 (not 9): it stays single-line at `MaxWidth = 12` and renders the
four-line multi-line form at `MaxWidth = 11` and `MaxWidth = 8`. -/
theorem c3_amended_width_threshold :
    (∀ (mw : Int) (ob cb tn : String) (ind : Nat) (pad : Bool) (mk : Int)
        (items : List (String × String)), items ≠ [] →
      (¬ xcond mw ob cb tn pad mk items →
        (cfBuild mw ob cb tn ind pad mk items).format =
          tn ++ ob ++ (if pad then " " else "") ++
          String.intercalate ", " (items.map Prod.fst) ++
          (if pad then " " else "") ++ cb) ∧
      (xcond mw ob cb tn pad mk items →
        (cfBuild mw ob cb tn ind pad mk items).format =
          tn ++ ob ++ "\n" ++
          String.intercalate ",\n"
            ((items.map Prod.snd).map (fun it => indentOf (ind + 1) ++ it)) ++
          "\n" ++ indentOf ind ++ cb)) ∧
    printGo (printerW 12) sliceHeap1234 0 noJson (some (.vslice (some 1))) =
      "[1, 2, 3, 4]" ∧
    printGo (printerW 11) sliceHeap1234 0 noJson (some (.vslice (some 1))) =
      "[\n  1,\n  2,\n  3,\n  4\n]" ∧
    printGo (printerW 8) sliceHeap1234 0 noJson (some (.vslice (some 1))) =
      "[\n  1,\n  2,\n  3,\n  4\n]" := by
  refine ⟨?_, by decide, by decide, by decide⟩
  intro mw ob cb tn ind pad mk items hne
  have hbuild : cfBuild mw ob cb tn ind pad mk items =
      items.foldl (fun cf it => cf.addItem it.1 it.2)
        (goodState mw ob cb tn ind pad mk []) := by
    rw [goodState_nil]; rfl
  constructor
  · intro hx
    rw [hbuild, foldl_goodState mw ob cb tn ind pad mk items [] (by simpa using hx)]
    unfold goodState CompoundFormatter.format
    simp only [List.nil_append]
    rw [if_neg (by simp [List.length_map]; exact hne)]
    rw [if_neg (by simp)]
  · intro hx
    rw [hbuild]
    have hex := foldl_exceeds mw ob cb tn ind pad mk items [] (by simpa using hx)
      (by simp [xcond]; omega)
    have hmulti := foldl_addItem_multiItems items (goodState mw ob cb tn ind pad mk [])
    have hfix := foldl_addItem_fixed items (goodState mw ob cb tn ind pad mk [])
    rcases hfix with ⟨f1, f2, f3, f4, f5⟩
    unfold CompoundFormatter.format
    rw [if_neg, if_pos (Or.inl hex)]
    · unfold CompoundFormatter.formatMultiLine
      rw [hmulti, f1, f2, f3, f4]
      simp [goodState]
    · rw [hmulti]
      simp [goodState, List.length_map]
      exact hne

/-- Witness for C3 (amended): two one-character items at `MaxWidth = 8`
(single-line width 8) render single-line; at `MaxWidth = 7` they render
multi-line. -/
theorem c3_amended_width_threshold_witness :
    (cfBuild 6 "[" "]" "" 0 false 0 [("1", "1"), ("2", "2")]).format = "[1, 2]" ∧
    (cfBuild 5 "[" "]" "" 0 false 0 [("1", "1"), ("2", "2")]).format =
      "[\n  1,\n  2\n]" := by
  constructor
  · have := (c3_amended_width_threshold.1 6 "[" "]" "" 0 false 0
      [("1", "1"), ("2", "2")] (by decide)).1 (by unfold xcond cfBase singleWidthSum visWidth; decide)
    rw [this]; rfl
  · have := (c3_amended_width_threshold.1 5 "[" "]" "" 0 false 0
      [("1", "1"), ("2", "2")] (by decide)).2 (by unfold xcond cfBase singleWidthSum visWidth; decide)
    rw [this]; rfl

/-- **C3 counterexample** — the claim's example is off by the separator
widths: the single-line rendering of the list `1,2,3,4` is
`"[1, 2, 3, 4]"`, of visible width 12, not 9, so at `MaxWidth = 11` the
sequence does NOT stay single-line: it renders the four-line multi-line
form. -/
theorem c3_width_example_counterexample :
    visWidth "[1, 2, 3, 4]" = 12 ∧
    printGo (printerW 11) sliceHeap1234 0 noJson (some (.vslice (some 1))) ≠
      "[1, 2, 3, 4]" ∧
    countChar '\n'
      (printGo (printerW 11) sliceHeap1234 0 noJson (some (.vslice (some 1)))) = 5 := by
  refine ⟨by decide, by decide, by decide⟩

theorem formatF_vint (ctx : Ctx) (fuel : Nat) (n : Int) (ind : Nat) (nm : Bool)
    (s : Session) : formatF ctx (fuel + 1) (.vint n) ind nm s = some (toString n, s) := rfl

theorem mapOptState_vint (ctx : Ctx) (fuel : Nat) (ind : Nat)
    (l : List Int) : ∀ s : Session,
    mapOptState (elemLine (formatF ctx (fuel + 1)) ind) (l.map GoVal.vint) s =
      some (l.map (fun n => indentOf ind ++ toString n), s) := by
  induction l with
  | nil => intro s; rfl
  | cons n l ih =>
      intro s
      simp only [List.map_cons, mapOptState, elemLine, formatF_vint, ih]

/-- **C4 (amended)** — for every integer sequence of length `L` with
`MaxSliceLength = M`, `0 < M < L`, the truncated rendering shows
`max(⌊M/2⌋, 1)` leading elements (not `⌈M/2⌉`), then — when the omitted
count `L − 2·max(⌊M/2⌋,1)` is positive — the comment line
`"... N more elements ..."`, then the same number `max(⌊M/2⌋, 1)` of
trailing elements taken from the end without overlapping the leading set,
then a final summary comment stating the true length `L` exactly; the
number of rendered element lines is `2·max(⌊M/2⌋, 1)`, which is `M − 1`
for odd `M ≥ 3`, not `M`. -/
theorem c4_amended_truncated_slice :
    ∀ (p : Printer) (heap : Heap) (now : Int) (jp : String → Option GoVal)
      (fuel ind : Nat) (M : Nat) (xs : List Int) (s : Session),
      p.maxSliceLength = (M : Int) → 0 < M → M < xs.length →
      (formatTruncatedSliceParts ⟨p, heap, now, jp⟩ (formatF ⟨p, heap, now, jp⟩ (fuel + 1))
          (xs.map GoVal.vint) ind (xs.map GoVal.vint).length s =
        some (
          ((xs.take (max (M / 2) 1)).map (fun n => indentOf (ind + 1) ++ toString n)) ++
          (if 0 < (xs.length : Int) - 2 * (max (M / 2) 1 : Nat) then
            [indentOf (ind + 1) ++ "... " ++
              toString ((xs.length : Int) - 2 * (max (M / 2) 1 : Nat)) ++
              " more elements ..."]
           else []) ++
          ((xs.drop (xs.length - max (M / 2) 1)).map
            (fun n => indentOf (ind + 1) ++ toString n)) ++
          [indentOf (ind + 1) ++ "// len() = " ++ toString xs.length], s)) ∧
      (xs.take (max (M / 2) 1)).length = max (M / 2) 1 ∧
      (xs.drop (xs.length - max (M / 2) 1)).length = max (M / 2) 1 ∧
      max (M / 2) 1 ≤ xs.length - max (M / 2) 1 := by
  intro p heap now jp fuel ind M xs s hM hM0 hML
  have hsc2 : 2 * max (M / 2) 1 ≤ xs.length := by omega
  have hscL : max (M / 2) 1 ≤ xs.length := by omega
  refine ⟨?_, by rw [List.length_take]; omega, by rw [List.length_drop]; omega, by omega⟩
  unfold formatTruncatedSliceParts
  have hshow : (p.maxSliceLength / 2).toNat = M / 2 := by rw [hM]; omega
  rw [hshow]
  simp only [List.length_map]
  rw [min_eq_left hscL,
    max_eq_left (by omega : max (M / 2) 1 ≤ xs.length - max (M / 2) 1)]
  rw [← List.map_take, ← List.map_drop]
  simp only [mapOptState_vint]

/-- Witness for C4 (amended) at `M = 4`, `L = 6`: two leading, two
trailing, omitted count 2, summary length 6. -/
theorem c4_amended_truncated_slice_witness :
    formatTruncatedSliceParts ⟨{ printerNever with maxSliceLength := 4 }, [], 0, noJson⟩
        (formatF ⟨{ printerNever with maxSliceLength := 4 }, [], 0, noJson⟩ 30)
        (([1, 2, 3, 4, 5, 6] : List Int).map GoVal.vint) 0
        (([1, 2, 3, 4, 5, 6] : List Int).map GoVal.vint).length ⟨[], []⟩ =
      some (["  1", "  2", "  ... 2 more elements ...", "  5", "  6", "  // len() = 6"],
        ⟨[], []⟩) := by
  have h := (c4_amended_truncated_slice { printerNever with maxSliceLength := 4 } [] 0
    noJson 29 0 4 [1, 2, 3, 4, 5, 6] ⟨[], []⟩ rfl (by decide) (by decide)).1
  rw [h]
  rfl

/-- **C4 counterexample** — with `MaxSliceLength = 3` and the length-5 list
`[1,2,3,4,5]`, the rendering shows `max(⌊3/2⌋,1) = 1` leading element (the
claim says `⌈3/2⌉ = 2`) and 2 element lines in total (the claim says
`M = 3`): the parts are exactly one leading element, the omission comment,
one trailing element, and the summary. -/
theorem c4_truncation_counterexample :
    printGo printerM3 sliceHeap5 0 noJson (some (.vslice (some 1))) =
      "[\n  1,\n  ... 3 more elements ...,\n  5,\n  // len() = 5\n]" ∧
    formatTruncatedSliceParts ⟨printerM3, sliceHeap5, 0, noJson⟩
        (formatF ⟨printerM3, sliceHeap5, 0, noJson⟩ 30)
        (([1, 2, 3, 4, 5] : List Int).map GoVal.vint) 0 5 ⟨[], []⟩ =
      some (["  1", "  ... 3 more elements ...", "  5", "  // len() = 5"], ⟨[], []⟩) ∧
    max ((3 : Int) / 2).toNat 1 = 1 ∧
    (3 + 1) / 2 = 2 ∧
    (1 : Nat) ≠ 2 := by
  refine ⟨by decide, by decide, by decide, by decide, by decide⟩

theorem mapOptState_congr {α β : Type} (f1 f2 : α → Session → Option (β × Session))
    (l : List α) (h : ∀ x ∈ l, ∀ st, f1 x st = f2 x st) :
    ∀ s, mapOptState f1 l s = mapOptState f2 l s := by
  induction l with
  | nil => intro s; rfl
  | cons x xs ih =>
      intro s
      simp only [mapOptState]
      rw [h x (by simp),
        show mapOptState f1 xs = mapOptState f2 xs from
          funext (fun s1 => ih (fun z hz st => h z (by simp [hz]) st) s1)]

theorem pairFmt_congr (rec1 rec2 : RecFn) (hrec : RecAgree rec1 rec2) (names : Bool)
    (v : GoVal) (ind : Nat) (st : Session) (hv : timeFree v = true) :
    pairFmt rec1 names v ind st = pairFmt rec2 names v ind st := by
  unfold pairFmt
  rw [hrec v 0 names st hv,
    show rec1 v (ind + 1) names = rec2 v (ind + 1) names from
      funext (fun st1 => hrec v (ind + 1) names st1 hv)]

theorem elemLine_congr (rec1 rec2 : RecFn) (hrec : RecAgree rec1 rec2) (ni : Nat)
    (e : GoVal) (st : Session) (he : timeFree e = true) :
    elemLine rec1 ni e st = elemLine rec2 ni e st := by
  unfold elemLine
  rw [hrec e ni true st he]

theorem timeFree_unwrap (v : GoVal) (hv : timeFree v = true) :
    timeFree (unwrapIface v) = true := by
  cases v with
  | viface o => cases o <;> simpa [unwrapIface, timeFree] using hv
  | _ => simpa [unwrapIface] using hv

theorem timeFreeList_mem {l : List GoVal} {x : GoVal} (hl : timeFreeList l = true)
    (hx : x ∈ l) : timeFree x = true := by
  induction l with
  | nil => cases hx
  | cons y ys ih =>
      simp only [timeFreeList, Bool.and_eq_true] at hl
      rcases hx with _ | hx
      · exact hl.1
      · exact ih hl.2 (by assumption)

theorem timeFreeFields_mem {fs : List (String × Bool × Bool × GoVal)}
    {f : String × Bool × Bool × GoVal} (hl : timeFreeFields fs = true) (hf : f ∈ fs) :
    timeFree f.2.2.2 = true := by
  induction fs with
  | nil => cases hf
  | cons g gs ih =>
      obtain ⟨a, b, c, w⟩ := g
      simp only [timeFreeFields, Bool.and_eq_true] at hl
      rcases hf with _ | hf
      · exact hl.1
      · exact ih hl.2 (by assumption)

theorem timeFreeEntries_mem {es : List (MapKey × GoVal)} {kv : MapKey × GoVal}
    (hl : timeFreeEntries es = true) (hkv : kv ∈ es) : timeFree kv.2 = true := by
  induction es with
  | nil => cases hkv
  | cons g gs ih =>
      obtain ⟨k, w⟩ := g
      simp only [timeFreeEntries, Bool.and_eq_true] at hl
      rcases hkv with _ | hkv
      · exact hl.1
      · exact ih hl.2 (by assumption)

theorem heapLookup_cellTimeFree {h : Heap} {a : Addr} {c : HeapCell}
    (hh : heapTimeFree h = true) (hc : heapLookup h a = some c) :
    cellTimeFree c = true := by
  induction h with
  | nil => cases hc
  | cons e t ih =>
      simp only [heapTimeFree, List.all_cons, Bool.and_eq_true] at hh
      unfold heapLookup at hc
      simp only [List.find?] at hc
      cases hbe : (e.1 == a) with
      | true =>
          simp only [hbe] at hc
          cases hc
          exact hh.1
      | false =>
          simp only [hbe] at hc
          exact ih (by simpa [heapTimeFree] using hh.2) hc

theorem formatStructF_congr (p : Printer) (heap : Heap) (jp : String → Option GoVal)
    (now now' : Int) (rec1 rec2 : RecFn) (hrec : RecAgree rec1 rec2) (name : String)
    (fields : List (String × Bool × Bool × GoVal)) (ind : Nat) (inc : Bool)
    (hf : timeFreeFields fields = true) (st : Session) :
    formatStructF ⟨p, heap, now, jp⟩ rec1 name fields ind inc st =
      formatStructF ⟨p, heap, now', jp⟩ rec2 name fields ind inc st := by
  unfold formatStructF
  by_cases hlen : fields.length = 0
  · rw [if_pos hlen, if_pos hlen]
  · rw [if_neg hlen, if_neg hlen]
    rw [mapOptState_congr _ (structFieldLine ⟨p, heap, now', jp⟩ rec2 ind) _ ?_]
    intro f hfmem st2
    unfold structFieldLine
    simp only []
    have hftf : timeFree f.2.2.2 = true :=
      timeFreeFields_mem hf (List.mem_of_mem_filter hfmem)
    by_cases hcond : ¬ isTimeVal f.2.2.2 ∧
        shouldOmitStructName heap f.1 f.2.2.2 (some f.2.2.1)
    · rw [if_pos hcond, if_pos hcond, pairFmt_congr rec1 rec2 hrec false _ ind st2 hftf]
    · rw [if_neg hcond, if_neg hcond, pairFmt_congr rec1 rec2 hrec true _ ind st2 hftf]

theorem formatMapValuePair_congr (p : Printer) (heap : Heap)
    (jp : String → Option GoVal) (now now' : Int) (rec1 rec2 : RecFn)
    (hrec : RecAgree rec1 rec2) (k : MapKey) (mv : GoVal) (ind : Nat)
    (hv : timeFree mv = true) (st : Session) :
    formatMapValuePair ⟨p, heap, now, jp⟩ rec1 k mv ind st =
      formatMapValuePair ⟨p, heap, now', jp⟩ rec2 k mv ind st := by
  unfold formatMapValuePair
  cases k with
  | kstr ks =>
      by_cases ht : isTimeVal mv
      · simp only [ht, if_true]
        exact pairFmt_congr rec1 rec2 hrec true mv ind st hv
      · simp only [ht, if_false, Bool.false_eq_true]
        by_cases ho : shouldOmitStructName heap ks mv none
        · simp only [ho, if_true]
          cases hu : unwrapIface mv with
          | vstruct nm fields =>
              simp only []
              have hftf : timeFreeFields fields = true := by
                have := timeFree_unwrap mv hv
                rw [hu] at this
                simpa [timeFree] using this
              rw [formatStructF_congr p heap jp now now' rec1 rec2 hrec nm fields 0
                false hftf st,
                show formatStructF ⟨p, heap, now, jp⟩ rec1 nm fields (ind + 1) false =
                    formatStructF ⟨p, heap, now', jp⟩ rec2 nm fields (ind + 1) false from
                  funext (fun st1 => formatStructF_congr p heap jp now now' rec1 rec2
                    hrec nm fields (ind + 1) false hftf st1)]
          | _ =>
              simp only []
              exact pairFmt_congr rec1 rec2 hrec true mv ind st hv
        · simp only [ho, if_false, Bool.false_eq_true]
          exact pairFmt_congr rec1 rec2 hrec true mv ind st hv
  | _ => exact pairFmt_congr rec1 rec2 hrec true mv ind st hv

theorem formatMapF_congr (p : Printer) (heap : Heap) (jp : String → Option GoVal)
    (now now' : Int) (rec1 rec2 : RecFn) (hrec : RecAgree rec1 rec2)
    (entries : List (MapKey × GoVal)) (ind : Nat)
    (he : timeFreeEntries entries = true) (s : Session) :
    formatMapF ⟨p, heap, now, jp⟩ rec1 entries ind s =
      formatMapF ⟨p, heap, now', jp⟩ rec2 entries ind s := by
  unfold formatMapF
  by_cases hlen : entries.length = 0
  · rw [if_pos hlen, if_pos hlen]
  · rw [if_neg hlen, if_neg hlen]
    rw [mapOptState_congr _ (mapEntryLine ⟨p, heap, now', jp⟩ rec2 ind) _ ?_]
    intro kv hkv st2
    unfold mapEntryLine
    simp only []
    have hkvm : kv ∈ entries :=
      ((List.perm_insertionSort _ entries).mem_iff).1 hkv
    rw [formatMapValuePair_congr p heap jp now now' rec1 rec2 hrec kv.1 kv.2 ind
      (timeFreeEntries_mem he hkvm) st2]

theorem formatTruncatedSliceParts_congr (p : Printer) (heap : Heap)
    (jp : String → Option GoVal) (now now' : Int) (rec1 rec2 : RecFn)
    (hrec : RecAgree rec1 rec2) (elems : List GoVal) (ind total : Nat)
    (hl : timeFreeList elems = true) (s : Session) :
    formatTruncatedSliceParts ⟨p, heap, now, jp⟩ rec1 elems ind total s =
      formatTruncatedSliceParts ⟨p, heap, now', jp⟩ rec2 elems ind total s := by
  unfold formatTruncatedSliceParts
  simp only []
  rw [mapOptState_congr _ (elemLine rec2 (ind + 1)) _
    (fun e hke st => elemLine_congr rec1 rec2 hrec (ind + 1) e st
      (timeFreeList_mem hl (List.mem_of_mem_take hke))),
    show mapOptState (elemLine rec1 (ind + 1))
        (elems.drop (max (total - max (p.maxSliceLength / 2).toNat 1)
          (max (p.maxSliceLength / 2).toNat 1))) =
      mapOptState (elemLine rec2 (ind + 1))
        (elems.drop (max (total - max (p.maxSliceLength / 2).toNat 1)
          (max (p.maxSliceLength / 2).toNat 1))) from
    funext (mapOptState_congr _ (elemLine rec2 (ind + 1)) _
      (fun e hke st => elemLine_congr rec1 rec2 hrec (ind + 1) e st
        (timeFreeList_mem hl (List.mem_of_mem_drop hke))))]

theorem formatTruncatedSliceF_congr (p : Printer) (heap : Heap)
    (jp : String → Option GoVal) (now now' : Int) (rec1 rec2 : RecFn)
    (hrec : RecAgree rec1 rec2) (elems : List GoVal) (ind total : Nat)
    (hl : timeFreeList elems = true) (s : Session) :
    formatTruncatedSliceF ⟨p, heap, now, jp⟩ rec1 elems ind total s =
      formatTruncatedSliceF ⟨p, heap, now', jp⟩ rec2 elems ind total s := by
  unfold formatTruncatedSliceF
  rw [formatTruncatedSliceParts_congr p heap jp now now' rec1 rec2 hrec elems ind
    total hl s]

theorem formatSliceF_congr (p : Printer) (heap : Heap) (jp : String → Option GoVal)
    (now now' : Int) (rec1 rec2 : RecFn) (hrec : RecAgree rec1 rec2)
    (elems : List GoVal) (ind : Nat) (hl : timeFreeList elems = true) (s : Session) :
    formatSliceF ⟨p, heap, now, jp⟩ rec1 elems ind s =
      formatSliceF ⟨p, heap, now', jp⟩ rec2 elems ind s := by
  unfold formatSliceF
  by_cases hlen : elems.length = 0
  · rw [if_pos hlen, if_pos hlen]
  · rw [if_neg hlen, if_neg hlen]
    by_cases htr : p.maxSliceLength > 0 ∧ (elems.length : Int) > p.maxSliceLength
    · rw [if_pos htr, if_pos htr]
      exact formatTruncatedSliceF_congr p heap jp now now' rec1 rec2 hrec elems ind
        elems.length hl s
    · rw [if_neg htr, if_neg htr]
      rw [mapOptState_congr _ (pairFmt rec2 true · ind ·) _
        (fun e hke st => pairFmt_congr rec1 rec2 hrec true e ind st
          (timeFreeList_mem hl hke))]

theorem formatBody_congr (p : Printer) (heap : Heap) (jp : String → Option GoVal)
    (now now' : Int) (rec1 rec2 : RecFn) (hrec : RecAgree rec1 rec2)
    (hheap : heapTimeFree heap = true)
    (hjp : ∀ str pv, jp str = some pv → timeFree pv = true) (v : GoVal) (ind : Nat)
    (nm : Bool) (s : Session) (hv : timeFree v = true) :
    formatBody ⟨p, heap, now, jp⟩ rec1 v ind nm s =
      formatBody ⟨p, heap, now', jp⟩ rec2 v ind nm s := by
  cases v with
  | vtime t => simp [timeFree] at hv
  | vstr str =>
      unfold formatBody
      simp only []
      by_cases hu : isUUIDString str
      · rw [if_pos hu, if_pos hu]
      · rw [if_neg hu, if_neg hu]
        by_cases hq : quickJSONCheck str
        · rw [if_pos hq, if_pos hq]
          cases hjson : jp str with
          | none => rfl
          | some parsed =>
              simp only []
              rw [hrec parsed ind true s (hjp str parsed hjson)]
        · rw [if_neg hq, if_neg hq]
  | vptr o =>
      cases o with
      | none => rfl
      | some a =>
          unfold formatBody
          simp only []
          cases hl : heapLookup heap a with
          | none => rfl
          | some c =>
              cases c with
              | cptr pv =>
                  simp only []
                  have : timeFree pv = true := by
                    have := heapLookup_cellTimeFree hheap hl
                    simpa [cellTimeFree] using this
                  rw [hrec pv ind nm s this]
              | cslice b es => rfl
              | cmap es => rfl
  | viface o =>
      cases o with
      | none => rfl
      | some iv =>
          have : timeFree iv = true := by simpa [timeFree] using hv
          unfold formatBody
          simp only []
          rw [hrec iv ind nm s this]
  | vslice o =>
      cases o with
      | none => rfl
      | some a =>
          unfold formatBody
          simp only []
          cases hl : heapLookup heap a with
          | none => rfl
          | some c =>
              cases c with
              | cptr pv => rfl
              | cmap es => rfl
              | cslice b es =>
                  simp only []
                  cases hb : tryFormatAsUUIDBytes b es with
                  | some u => rfl
                  | none =>
                      simp only [hb]
                      have : timeFreeList es = true := by
                        have := heapLookup_cellTimeFree hheap hl
                        simpa [cellTimeFree] using this
                      rw [formatSliceF_congr p heap jp now now' rec1 rec2 hrec es ind
                        this s]
  | varray b elems =>
      unfold formatBody
      simp only []
      cases hb : tryFormatAsUUIDBytes b elems with
      | some u => rfl
      | none =>
          simp only [hb]
          have : timeFreeList elems = true := by simpa [timeFree] using hv
          rw [formatSliceF_congr p heap jp now now' rec1 rec2 hrec elems ind this s]
  | vmap o =>
      cases o with
      | none => rfl
      | some a =>
          unfold formatBody
          simp only []
          cases hl : heapLookup heap a with
          | none => rfl
          | some c =>
              cases c with
              | cptr pv => rfl
              | cslice b es => rfl
              | cmap es =>
                  simp only []
                  have : timeFreeEntries es = true := by
                    have := heapLookup_cellTimeFree hheap hl
                    simpa [cellTimeFree] using this
                  rw [formatMapF_congr p heap jp now now' rec1 rec2 hrec es ind this s]
  | vstruct nmn fields =>
      have : timeFreeFields fields = true := by simpa [timeFree] using hv
      unfold formatBody
      simp only []
      rw [formatStructF_congr p heap jp now now' rec1 rec2 hrec nmn fields ind nm
        this s]
  | _ => rfl

theorem formatF_now_indep (p : Printer) (heap : Heap) (jp : String → Option GoVal)
    (now now' : Int) (hheap : heapTimeFree heap = true)
    (hjp : ∀ str pv, jp str = some pv → timeFree pv = true) :
    ∀ (fuel : Nat) (v : GoVal) (ind : Nat) (nm : Bool) (s : Session),
      timeFree v = true →
      formatF ⟨p, heap, now, jp⟩ fuel v ind nm s =
        formatF ⟨p, heap, now', jp⟩ fuel v ind nm s := by
  intro fuel
  induction fuel with
  | zero => intro v ind nm s hv; rfl
  | succ fuel ih =>
      intro v ind nm s hv
      have hbody := formatBody_congr p heap jp now now'
        (formatF ⟨p, heap, now, jp⟩ fuel) (formatF ⟨p, heap, now', jp⟩ fuel) ih hheap
        hjp
      show (match refAddr v with
        | some a =>
            if a ∈ s.visiting then
              some ("→" ++ formatCyclePointer a, markCycled a s)
            else
              match formatBody ⟨p, heap, now, jp⟩ (formatF ⟨p, heap, now, jp⟩ fuel) v
                  ind nm { s with visiting := a :: s.visiting } with
              | none => none
              | some (str, skipTag, s2) =>
                  some (if !skipTag ∧ a ∈ s2.cycled then str ++ formatCyclePointer a
                    else str, { s2 with visiting := s2.visiting.erase a })
        | none =>
            match formatBody ⟨p, heap, now, jp⟩ (formatF ⟨p, heap, now, jp⟩ fuel) v
                ind nm s with
            | some (str, _, s2) => some (str, s2)
            | none => none) =
        (match refAddr v with
        | some a =>
            if a ∈ s.visiting then
              some ("→" ++ formatCyclePointer a, markCycled a s)
            else
              match formatBody ⟨p, heap, now', jp⟩ (formatF ⟨p, heap, now', jp⟩ fuel) v
                  ind nm { s with visiting := a :: s.visiting } with
              | none => none
              | some (str, skipTag, s2) =>
                  some (if !skipTag ∧ a ∈ s2.cycled then str ++ formatCyclePointer a
                    else str, { s2 with visiting := s2.visiting.erase a })
        | none =>
            match formatBody ⟨p, heap, now', jp⟩ (formatF ⟨p, heap, now', jp⟩ fuel) v
                ind nm s with
            | some (str, _, s2) => some (str, s2)
            | none => none)
      cases refAddr v with
      | some a =>
          simp only []
          by_cases hmem : a ∈ s.visiting
          · rw [if_pos hmem, if_pos hmem]
          · rw [if_neg hmem, if_neg hmem,
              hbody v ind nm { s with visiting := a :: s.visiting } hv]
      | none =>
          simp only []
          rw [hbody v ind nm s hv]

/-- **C7 counterexample** — `Print`'s output is not a function of the value
and Configuration alone: a `time.Time` value renders relative to the wall
clock at call time, so two `Print` calls on the same cycle-free value with
the same Configuration, 1 second apart, produce different strings. -/
theorem c7_time_nondeterminism_counterexample :
    printGo printerNever [] (1000 * nsPerSecond) noJson
      (some (.vtime (955 * nsPerSecond))) = "45 seconds ago" ∧
    printGo printerNever [] (1001 * nsPerSecond) noJson
      (some (.vtime (955 * nsPerSecond))) = "46 seconds ago" ∧
    printGo printerNever [] (1000 * nsPerSecond) noJson
        (some (.vtime (955 * nsPerSecond))) ≠
      printGo printerNever [] (1001 * nsPerSecond) noJson
        (some (.vtime (955 * nsPerSecond))) := by
  refine ⟨by decide, by decide, by decide⟩

/-- **C7 (amended)** — for every value graph containing no `time.Time`
(in the value, the heap, or any JSON-parsed string), the output of `Print`
does not depend on the wall clock: two calls at different instants with
the same Configuration produce identical strings.  (Timestamp-bearing
values may differ between calls, as the counterexample shows.) -/
theorem c7_amended_determinism :
    ∀ (p : Printer) (heap : Heap) (jp : String → Option GoVal) (now now' : Int)
      (v : Option GoVal),
      heapTimeFree heap = true →
      (∀ str pv, jp str = some pv → timeFree pv = true) →
      (∀ w, v = some w → timeFree w = true) →
      printGo p heap now jp v = printGo p heap now' jp v := by
  intro p heap jp now now' v hheap hjp hv
  cases v with
  | none => rfl
  | some w =>
      unfold printGo
      simp only []
      rw [formatF_now_indep p heap jp now now' hheap hjp (printFuel heap w) w 0 true
        ⟨[], []⟩ (hv w rfl)]

/-- Witness for C7 (amended): a time-free struct over an empty heap prints
identically at two different wall clocks. -/
theorem c7_amended_determinism_witness :
    printGo printerNever [] 0 noJson
        (some (.vstruct "T" [("A", true, false, .vint 1)])) =
      printGo printerNever [] (1000 * nsPerSecond) noJson
        (some (.vstruct "T" [("A", true, false, .vint 1)])) := by
  exact c7_amended_determinism printerNever [] noJson 0 (1000 * nsPerSecond)
    (some (.vstruct "T" [("A", true, false, .vint 1)])) (by decide) (fun s pv h => by
      simp [noJson] at h) (fun w h => by cases h; decide)

/-! ### C1: visiting-set discipline and termination -/

theorem mapOptState_visiting {α β : Type} (f : α → Session → Option (β × Session))
    (hf : ∀ x s y s', f x s = some (y, s') → s'.visiting = s.visiting) :
    ∀ (l : List α) (s : Session) (ys : List β) (s' : Session),
      mapOptState f l s = some (ys, s') → s'.visiting = s.visiting := by
  intro l
  induction l with
  | nil =>
      intro s ys s' h
      simp only [mapOptState, Option.some.injEq, Prod.mk.injEq] at h
      rw [← h.2]
  | cons x xs ih =>
      intro s ys s' h
      simp only [mapOptState] at h
      split at h
      · cases h
      · rename_i y s1 hx
        split at h
        · cases h
        · rename_i ys2 s2 hrest
          simp only [Option.some.injEq, Prod.mk.injEq] at h
          rw [← h.2]
          exact (ih s1 ys2 s2 hrest).trans (hf x s y s1 hx)

theorem pairFmt_visiting (recur : RecFn)
    (hrec : ∀ v ind nm s r s', recur v ind nm s = some (r, s') → s'.visiting = s.visiting)
    (names : Bool) (v : GoVal) (ind : Nat) (st : Session) (pair : String × String)
    (st' : Session) (h : pairFmt recur names v ind st = some (pair, st')) :
    st'.visiting = st.visiting := by
  unfold pairFmt at h
  split at h
  · cases h
  · rename_i sv st1 h0
    split at h
    · cases h
    · rename_i mv st2 h1
      simp only [Option.some.injEq, Prod.mk.injEq] at h
      rw [← h.2]
      exact (hrec v (ind + 1) names st1 mv st2 h1).trans (hrec v 0 names st sv st1 h0)

theorem elemLine_visiting (recur : RecFn)
    (hrec : ∀ v ind nm s r s', recur v ind nm s = some (r, s') → s'.visiting = s.visiting)
    (ni : Nat) (e : GoVal) (st : Session) (r : String) (st' : Session)
    (h : elemLine recur ni e st = some (r, st')) : st'.visiting = st.visiting := by
  unfold elemLine at h
  split at h
  · cases h
  · rename_i r3 st3 h0
    simp only [Option.some.injEq, Prod.mk.injEq] at h
    rw [← h.2]
    exact hrec e ni true st r3 st3 h0

theorem formatStructF_visiting (ctx : Ctx) (recur : RecFn)
    (hrec : ∀ v ind nm s r s', recur v ind nm s = some (r, s') → s'.visiting = s.visiting)
    (name : String) (fields : List (String × Bool × Bool × GoVal)) (ind : Nat)
    (inc : Bool) (st : Session) (r : String) (st' : Session)
    (h : formatStructF ctx recur name fields ind inc st = some (r, st')) :
    st'.visiting = st.visiting := by
  unfold formatStructF at h
  revert h
  generalize (if inc = true then name else "") = typName
  intro h
  split at h
  · simp only [Option.some.injEq, Prod.mk.injEq] at h
    rw [← h.2]
  · split at h
    · cases h
    · rename_i items s2 hmap
      simp only [Option.some.injEq, Prod.mk.injEq] at h
      rw [← h.2]
      refine mapOptState_visiting _ ?_ _ st items s2 hmap
      intro f s3 y s4 hf
      unfold structFieldLine at hf
      split at hf
      · cases hf
      · rename_i pair st5 hp
        simp only [Option.some.injEq, Prod.mk.injEq] at hf
        rw [← hf.2]
        revert hp
        split
        · intro hp
          exact pairFmt_visiting recur hrec false f.2.2.2 ind s3 pair st5 hp
        · intro hp
          exact pairFmt_visiting recur hrec true f.2.2.2 ind s3 pair st5 hp

theorem formatMapValuePair_visiting (ctx : Ctx) (recur : RecFn)
    (hrec : ∀ v ind nm s r s', recur v ind nm s = some (r, s') → s'.visiting = s.visiting)
    (k : MapKey) (mv : GoVal) (ind : Nat) (st : Session) (pair : String × String)
    (st' : Session) (h : formatMapValuePair ctx recur k mv ind st = some (pair, st')) :
    st'.visiting = st.visiting := by
  unfold formatMapValuePair at h
  have hnormal : ∀ (hp : pairFmt recur true mv ind st = some (pair, st')),
      st'.visiting = st.visiting :=
    fun hp => pairFmt_visiting recur hrec true mv ind st pair st' hp
  cases k with
  | kstr ks =>
      simp only [] at h
      split at h
      · exact hnormal h
      · split at h
        · split at h
          next nm fields hu =>
            split at h
            · cases h
            next sv st1 h0 =>
              split at h
              · cases h
              next mvs st2 h1 =>
                simp only [Option.some.injEq, Prod.mk.injEq] at h
                rw [← h.2]
                exact (formatStructF_visiting ctx recur hrec nm fields (ind + 1) false
                  st1 mvs st2 h1).trans
                  (formatStructF_visiting ctx recur hrec nm fields 0 false st sv st1 h0)
          next hother => exact hnormal h
        · exact hnormal h
  | kint n => simp only [] at h; exact hnormal h
  | kuint n => simp only [] at h; exact hnormal h
  | kfloat g => simp only [] at h; exact hnormal h
  | kbool b => simp only [] at h; exact hnormal h
  | kother a b => simp only [] at h; exact hnormal h

theorem formatMapF_visiting (ctx : Ctx) (recur : RecFn)
    (hrec : ∀ v ind nm s r s', recur v ind nm s = some (r, s') → s'.visiting = s.visiting)
    (entries : List (MapKey × GoVal)) (ind : Nat) (s : Session) (r : String)
    (s' : Session) (h : formatMapF ctx recur entries ind s = some (r, s')) :
    s'.visiting = s.visiting := by
  unfold formatMapF at h
  split at h
  · simp only [Option.some.injEq, Prod.mk.injEq] at h
    rw [← h.2]
  · split at h
    · cases h
    · rename_i items s2 hmap
      simp only [Option.some.injEq, Prod.mk.injEq] at h
      rw [← h.2]
      refine mapOptState_visiting _ ?_ _ s items s2 hmap
      intro kv s3 y s4 hkv
      unfold mapEntryLine at hkv
      split at hkv
      · cases hkv
      · rename_i pair st5 hp
        simp only [Option.some.injEq, Prod.mk.injEq] at hkv
        rw [← hkv.2]
        exact formatMapValuePair_visiting ctx recur hrec kv.1 kv.2 ind s3 pair st5 hp

theorem formatTruncatedSliceParts_visiting (ctx : Ctx) (recur : RecFn)
    (hrec : ∀ v ind nm s r s', recur v ind nm s = some (r, s') → s'.visiting = s.visiting)
    (elems : List GoVal) (ind total : Nat) (s : Session) (parts : List String)
    (s' : Session)
    (h : formatTruncatedSliceParts ctx recur elems ind total s = some (parts, s')) :
    s'.visiting = s.visiting := by
  unfold formatTruncatedSliceParts at h
  simp only [] at h
  have hel : ∀ (e : GoVal) (s3 : Session) (y : String) (s4 : Session),
      elemLine recur (ind + 1) e s3 = some (y, s4) → s4.visiting = s3.visiting :=
    fun e s3 y s4 he => elemLine_visiting recur hrec (ind + 1) e s3 y s4 he
  split at h
  · cases h
  · rename_i lead s1 h1
    split at h
    · cases h
    · rename_i tail s2 h2
      simp only [Option.some.injEq, Prod.mk.injEq] at h
      rw [← h.2]
      exact (mapOptState_visiting _ hel _ s1 tail s2 h2).trans
        (mapOptState_visiting _ hel _ s lead s1 h1)

theorem formatTruncatedSliceF_visiting (ctx : Ctx) (recur : RecFn)
    (hrec : ∀ v ind nm s r s', recur v ind nm s = some (r, s') → s'.visiting = s.visiting)
    (elems : List GoVal) (ind total : Nat) (s : Session) (r : String) (s' : Session)
    (h : formatTruncatedSliceF ctx recur elems ind total s = some (r, s')) :
    s'.visiting = s.visiting := by
  unfold formatTruncatedSliceF at h
  split at h
  · cases h
  · rename_i parts s1 h1
    simp only [Option.some.injEq, Prod.mk.injEq] at h
    rw [← h.2]
    exact formatTruncatedSliceParts_visiting ctx recur hrec elems ind total s parts s1 h1

theorem formatSliceF_visiting (ctx : Ctx) (recur : RecFn)
    (hrec : ∀ v ind nm s r s', recur v ind nm s = some (r, s') → s'.visiting = s.visiting)
    (elems : List GoVal) (ind : Nat) (s : Session) (r : String) (s' : Session)
    (h : formatSliceF ctx recur elems ind s = some (r, s')) :
    s'.visiting = s.visiting := by
  unfold formatSliceF at h
  split at h
  · simp only [Option.some.injEq, Prod.mk.injEq] at h
    rw [← h.2]
  · split at h
    · exact formatTruncatedSliceF_visiting ctx recur hrec elems ind elems.length s r s' h
    · split at h
      · cases h
      · rename_i items s2 hmap
        simp only [Option.some.injEq, Prod.mk.injEq] at h
        rw [← h.2]
        refine mapOptState_visiting _ ?_ _ s items s2 hmap
        intro e s3 y s4 he
        exact pairFmt_visiting recur hrec true e ind s3 y s4 he

theorem formatBody_visiting (ctx : Ctx) (recur : RecFn)
    (hrec : ∀ v ind nm s r s', recur v ind nm s = some (r, s') → s'.visiting = s.visiting)
    (v : GoVal) (ind : Nat) (nm : Bool) (s : Session) (r : String) (skip : Bool)
    (s' : Session) (h : formatBody ctx recur v ind nm s = some (r, skip, s')) :
    s'.visiting = s.visiting := by
  unfold formatBody at h
  cases v with
  | vstr str =>
      simp only [] at h
      split at h
      · simp only [Option.some.injEq, Prod.mk.injEq] at h
        rw [← h.2.2]
      · split at h
        · split at h
          · split at h
            · rename_i ps s2 hr
              simp only [Option.some.injEq, Prod.mk.injEq] at h
              rw [← h.2.2]
              exact hrec _ ind true s ps s2 hr
            · cases h
          · simp only [Option.some.injEq, Prod.mk.injEq] at h
            rw [← h.2.2]
        · simp only [Option.some.injEq, Prod.mk.injEq] at h
          rw [← h.2.2]
  | vptr o =>
      cases o with
      | none =>
          simp only [Option.some.injEq, Prod.mk.injEq] at h
          rw [← h.2.2]
      | some a =>
          simp only [] at h
          split at h
          · rename_i pv hl
            rcases Option.map_eq_some'.1 h with ⟨⟨ps, s2⟩, hr, hout⟩
            cases hout
            exact hrec pv ind nm s ps s2 hr
          · simp only [Option.some.injEq, Prod.mk.injEq] at h
            rw [← h.2.2]
  | viface o =>
      cases o with
      | none =>
          simp only [Option.some.injEq, Prod.mk.injEq] at h
          rw [← h.2.2]
      | some iv =>
          simp only [] at h
          rcases Option.map_eq_some'.1 h with ⟨⟨ps, s2⟩, hr, hout⟩
          cases hout
          exact hrec iv ind nm s ps s2 hr
  | vslice o =>
      cases o with
      | none =>
          simp only [Option.some.injEq, Prod.mk.injEq] at h
          rw [← h.2.2]
      | some a =>
          simp only [] at h
          split at h
          · rename_i isByte es hl
            split at h
            · simp only [Option.some.injEq, Prod.mk.injEq] at h
              rw [← h.2.2]
            · rcases Option.map_eq_some'.1 h with ⟨⟨ps, s2⟩, hr, hout⟩
              cases hout
              exact formatSliceF_visiting ctx recur hrec es ind s ps s2 hr
          · simp only [Option.some.injEq, Prod.mk.injEq] at h
            rw [← h.2.2]
  | varray b elems =>
      simp only [] at h
      split at h
      · simp only [Option.some.injEq, Prod.mk.injEq] at h
        rw [← h.2.2]
      · rcases Option.map_eq_some'.1 h with ⟨⟨ps, s2⟩, hr, hout⟩
        cases hout
        exact formatSliceF_visiting ctx recur hrec elems ind s ps s2 hr
  | vmap o =>
      cases o with
      | none =>
          simp only [Option.some.injEq, Prod.mk.injEq] at h
          rw [← h.2.2]
      | some a =>
          simp only [] at h
          split at h
          · rename_i es hl
            rcases Option.map_eq_some'.1 h with ⟨⟨ps, s2⟩, hr, hout⟩
            cases hout
            exact formatMapF_visiting ctx recur hrec es ind s ps s2 hr
          · simp only [Option.some.injEq, Prod.mk.injEq] at h
            rw [← h.2.2]
  | vstruct nmn fields =>
      simp only [] at h
      rcases Option.map_eq_some'.1 h with ⟨⟨ps, s2⟩, hr, hout⟩
      cases hout
      exact formatStructF_visiting ctx recur hrec nmn fields ind nm s ps s2 hr
  | vreadCloser =>
      simp only [Option.some.injEq, Prod.mk.injEq] at h
      rw [← h.2.2]
  | vtime t =>
      simp only [Option.some.injEq, Prod.mk.injEq] at h
      rw [← h.2.2]
  | vint n =>
      simp only [Option.some.injEq, Prod.mk.injEq] at h
      rw [← h.2.2]
  | vuint n =>
      simp only [Option.some.injEq, Prod.mk.injEq] at h
      rw [← h.2.2]
  | vfloat g =>
      simp only [Option.some.injEq, Prod.mk.injEq] at h
      rw [← h.2.2]
  | vbool b =>
      simp only [Option.some.injEq, Prod.mk.injEq] at h
      rw [← h.2.2]
  | vchan d t =>
      simp only [Option.some.injEq, Prod.mk.injEq] at h
      rw [← h.2.2]

theorem formatF_visiting (ctx : Ctx) :
    ∀ (fuel : Nat) (v : GoVal) (ind : Nat) (nm : Bool) (s : Session) (r : String)
      (s' : Session), formatF ctx fuel v ind nm s = some (r, s') →
      s'.visiting = s.visiting := by
  intro fuel
  induction fuel with
  | zero => intro v ind nm s r s' h; cases h
  | succ fuel ih =>
      intro v ind nm s r s' h
      unfold formatF at h
      split at h
      · rename_i a hra
        split at h
        · simp only [Option.some.injEq, Prod.mk.injEq] at h
          rw [← h.2]
          unfold markCycled
          split <;> rfl
        · rename_i hmem
          split at h
          · cases h
          · rename_i str skip s2 hb
            simp only [Option.some.injEq, Prod.mk.injEq] at h
            rw [← h.2]
            have h2 : s2.visiting = a :: s.visiting :=
              formatBody_visiting ctx (formatF ctx fuel) ih v ind nm
                { s with visiting := a :: s.visiting } str skip s2 hb
            simp only [h2, List.erase_cons_head]
      · split at h
        · rename_i str skip s2 hb
          simp only [Option.some.injEq, Prod.mk.injEq] at h
          rw [← h.2]
          exact formatBody_visiting ctx (formatF ctx fuel) ih v ind nm s str skip s2 hb
        · cases h

/-! ### C1: termination measure and the assembled cycle-safety claim -/

theorem vsize_pos (v : GoVal) : 1 ≤ vsize v := by
  cases v with
  | vstr s => simp only [vsize]; omega
  | viface o =>
      cases o with
      | none => exact Nat.le.refl
      | some w => simp only [vsize]; omega
  | vstruct n fs => simp only [vsize]; omega
  | varray b es => simp only [vsize]; omega
  | vint n => exact Nat.le.refl
  | vuint n => exact Nat.le.refl
  | vfloat g => exact Nat.le.refl
  | vbool b => exact Nat.le.refl
  | vtime t => exact Nat.le.refl
  | vptr a => exact Nat.le.refl
  | vslice a => exact Nat.le.refl
  | vmap a => exact Nat.le.refl
  | vchan d t => exact Nat.le.refl
  | vreadCloser => exact Nat.le.refl

theorem vsizeList_mem_le {l : List GoVal} {x : GoVal} (hx : x ∈ l) :
    vsize x ≤ vsizeList l := by
  induction l with
  | nil => cases hx
  | cons y ys ih =>
      simp only [vsizeList]
      rcases List.mem_cons.1 hx with h | h
      · subst h; exact Nat.le_add_right _ _
      · exact le_trans (ih h) (Nat.le_add_left _ _)

theorem vsizeFields_mem_le {fs : List (String × Bool × Bool × GoVal)}
    {f : String × Bool × Bool × GoVal} (hf : f ∈ fs) :
    vsize f.2.2.2 ≤ vsizeFields fs := by
  induction fs with
  | nil => cases hf
  | cons g gs ih =>
      obtain ⟨n, r, w, v⟩ := g
      simp only [vsizeFields]
      rcases List.mem_cons.1 hf with h | h
      · subst h; exact Nat.le_add_right _ _
      · exact le_trans (ih h) (Nat.le_add_left _ _)

theorem vsizeEntries_mem_le {es : List (MapKey × GoVal)} {kv : MapKey × GoVal}
    (hkv : kv ∈ es) : vsize kv.2 ≤ vsizeEntries es := by
  induction es with
  | nil => cases hkv
  | cons g gs ih =>
      obtain ⟨k, v⟩ := g
      simp only [vsizeEntries]
      rcases List.mem_cons.1 hkv with h | h
      · subst h; exact Nat.le_add_right _ _
      · exact le_trans (ih h) (Nat.le_add_left _ _)

theorem vsize_unwrapIface_le (v : GoVal) : vsize (unwrapIface v) ≤ vsize v := by
  cases v
  case viface o =>
    cases o with
    | none => exact le_refl _
    | some w => simp only [unwrapIface, vsize]; omega
  all_goals exact le_refl _

theorem heapLookup_mem {h : Heap} {a : Addr} {c : HeapCell}
    (hl : heapLookup h a = some c) : ∃ e ∈ h, e.1 = a ∧ e.2 = c := by
  unfold heapLookup at hl
  rcases Option.map_eq_some'.1 hl with ⟨e, hfind, hc⟩
  have hb := List.find?_some hfind
  simp only [beq_iff_eq] at hb
  exact ⟨e, List.mem_of_find?_eq_some hfind, hb, hc⟩

theorem cellWeight_le_heapWeight {h : Heap} {a : Addr} {c : HeapCell}
    (hl : heapLookup h a = some c) : cellWeight c ≤ heapWeight h := by
  obtain ⟨e, he, -, hc⟩ := heapLookup_mem hl
  subst hc
  exact List.single_le_sum (fun x _ => Nat.zero_le x) _
    (List.mem_map_of_mem (fun e => cellWeight e.2) he)

theorem heapLookup_addrsD {h : Heap} {a : Addr} {c : HeapCell}
    (hl : heapLookup h a = some c) : a ∈ heapAddrsD h := by
  obtain ⟨e, he, ha, -⟩ := heapLookup_mem hl
  subst ha
  exact List.mem_dedup.2 (List.mem_map_of_mem Prod.fst he)

theorem filter_notmem_cons_le (l : List Addr) (a : Addr) (vis : List Addr) :
    (l.filter (fun x => x ∉ a :: vis)).length ≤ (l.filter (fun x => x ∉ vis)).length := by
  induction l with
  | nil => exact le_refl _
  | cons y ys ih =>
      by_cases hy : y ∈ a :: vis
      · by_cases hy2 : y ∈ vis
        · rw [List.filter_cons, List.filter_cons, if_neg (by simp [hy]),
            if_neg (by simp [hy2])]
          exact ih
        · rw [List.filter_cons, List.filter_cons, if_neg (by simp [hy]),
            if_pos (by simp [hy2])]
          exact le_trans ih (Nat.le_succ _)
      · have hy2 : y ∉ vis := fun hh => hy (List.mem_cons_of_mem _ hh)
        rw [List.filter_cons, List.filter_cons, if_pos (by simp [hy]),
          if_pos (by simp [hy2])]
        exact Nat.succ_le_succ ih

theorem unvisited_cons_lt {h : Heap} {a : Addr} {vis : List Addr}
    (ha : a ∈ heapAddrsD h) (hnv : a ∉ vis) :
    unvisited h (a :: vis) < unvisited h vis := by
  unfold unvisited
  revert ha
  generalize heapAddrsD h = l
  intro ha
  induction l with
  | nil => cases ha
  | cons y ys ih =>
      rcases List.mem_cons.1 ha with h1 | hmem
      · subst h1
        rw [List.filter_cons, List.filter_cons,
          if_neg (by simp [List.mem_cons_self]), if_pos (by simp [hnv])]
        exact Nat.lt_succ_of_le (filter_notmem_cons_le ys a vis)
      · by_cases hy : y ∈ a :: vis
        · by_cases hy2 : y ∈ vis
          · rw [List.filter_cons, List.filter_cons, if_neg (by simp [hy]),
              if_neg (by simp [hy2])]
            exact ih hmem
          · rw [List.filter_cons, List.filter_cons, if_neg (by simp [hy]),
              if_pos (by simp [hy2])]
            exact lt_of_lt_of_le (ih hmem) (Nat.le_succ _)
        · have hy2 : y ∉ vis := fun hh => hy (List.mem_cons_of_mem _ hh)
          rw [List.filter_cons, List.filter_cons, if_pos (by simp [hy]),
            if_pos (by simp [hy2])]
          exact Nat.succ_lt_succ (ih hmem)

theorem mapOptState_total {α β : Type} (f : α → Session → Option (β × Session))
    (V : List Addr) :
    ∀ (l : List α),
    (∀ a ∈ l, ∀ s2 : Session, s2.visiting = V →
      ∃ y s', f a s2 = some (y, s') ∧ s'.visiting = V) →
    ∀ s : Session, s.visiting = V →
    ∃ ys s', mapOptState f l s = some (ys, s') ∧ s'.visiting = V := by
  intro l
  induction l with
  | nil => intro _ s hs; exact ⟨[], s, rfl, hs⟩
  | cons x xs ih =>
      intro hl s hs
      obtain ⟨y, s1, hy, hs1⟩ := hl x (List.mem_cons_self x xs) s hs
      obtain ⟨ys, s2, hys, hs2⟩ := ih (fun a ha => hl a (List.mem_cons_of_mem x ha)) s1 hs1
      refine ⟨y :: ys, s2, ?_, hs2⟩
      unfold mapOptState
      rw [hy]
      simp only []
      rw [hys]

theorem pairFmt_total (recur : RecFn) (V : List Addr) (B : Nat)
    (hvis : ∀ v ind nm s r s', recur v ind nm s = some (r, s') → s'.visiting = s.visiting)
    (hrec : ∀ v ind nm (s : Session), s.visiting = V → vsize v ≤ B →
      ∃ r, recur v ind nm s = some r)
    (names : Bool) (v : GoVal) (ind : Nat) (s : Session) (hs : s.visiting = V)
    (hv : vsize v ≤ B) : ∃ r, pairFmt recur names v ind s = some r := by
  obtain ⟨⟨sv, s1⟩, h1⟩ := hrec v 0 names s hs hv
  have hs1 : s1.visiting = V := (hvis v 0 names s sv s1 h1).trans hs
  obtain ⟨⟨mv, s2⟩, h2⟩ := hrec v (ind + 1) names s1 hs1 hv
  refine ⟨((sv, mv), s2), ?_⟩
  unfold pairFmt
  rw [h1]
  simp only []
  rw [h2]

theorem elemLine_total (recur : RecFn) (V : List Addr) (B : Nat)
    (hrec : ∀ v ind nm (s : Session), s.visiting = V → vsize v ≤ B →
      ∃ r, recur v ind nm s = some r)
    (ni : Nat) (e : GoVal) (s : Session) (hs : s.visiting = V) (he : vsize e ≤ B) :
    ∃ r, elemLine recur ni e s = some r := by
  obtain ⟨⟨r, s'⟩, h1⟩ := hrec e ni true s hs he
  refine ⟨(indentOf ni ++ r, s'), ?_⟩
  unfold elemLine
  rw [h1]

theorem structFieldLine_total (ctx : Ctx) (recur : RecFn) (V : List Addr) (B : Nat)
    (hvis : ∀ v ind nm s r s', recur v ind nm s = some (r, s') → s'.visiting = s.visiting)
    (hrec : ∀ v ind nm (s : Session), s.visiting = V → vsize v ≤ B →
      ∃ r, recur v ind nm s = some r)
    (ind : Nat) (f : String × Bool × Bool × GoVal) (st : Session)
    (hst : st.visiting = V) (hfB : vsize f.2.2.2 ≤ B) :
    ∃ y s', structFieldLine ctx recur ind f st = some (y, s') ∧ s'.visiting = V := by
  by_cases hc : ¬ isTimeVal f.2.2.2 ∧
      shouldOmitStructName ctx.heap f.1 f.2.2.2 (some f.2.2.1)
  · obtain ⟨⟨pair, st2⟩, hp⟩ :=
      pairFmt_total recur V B hvis hrec false f.2.2.2 ind st hst hfB
    have hv2 : st2.visiting = V :=
      (pairFmt_visiting recur hvis false f.2.2.2 ind st pair st2 hp).trans hst
    exact ⟨_, st2, by unfold structFieldLine; rw [if_pos hc, hp], hv2⟩
  · obtain ⟨⟨pair, st2⟩, hp⟩ :=
      pairFmt_total recur V B hvis hrec true f.2.2.2 ind st hst hfB
    have hv2 : st2.visiting = V :=
      (pairFmt_visiting recur hvis true f.2.2.2 ind st pair st2 hp).trans hst
    exact ⟨_, st2, by unfold structFieldLine; rw [if_neg hc, hp], hv2⟩

theorem formatStructF_total (ctx : Ctx) (recur : RecFn) (V : List Addr) (B : Nat)
    (hvis : ∀ v ind nm s r s', recur v ind nm s = some (r, s') → s'.visiting = s.visiting)
    (hrec : ∀ v ind nm (s : Session), s.visiting = V → vsize v ≤ B →
      ∃ r, recur v ind nm s = some r)
    (name : String) (fields : List (String × Bool × Bool × GoVal)) (ind : Nat)
    (inc : Bool) (s : Session) (hs : s.visiting = V)
    (hfields : ∀ f ∈ fields, vsize f.2.2.2 ≤ B) :
    ∃ r, formatStructF ctx recur name fields ind inc s = some r := by
  by_cases h0 : fields.length = 0
  · exact ⟨_, by unfold formatStructF; rw [if_pos h0]⟩
  · obtain ⟨items, s', hm, -⟩ := mapOptState_total (structFieldLine ctx recur ind)
      V (fields.filter (fun f => f.2.1))
      (fun f hf st hst => structFieldLine_total ctx recur V B hvis hrec ind f st hst
        (hfields f (List.mem_of_mem_filter hf))) s hs
    exact ⟨_, by unfold formatStructF; rw [if_neg h0, hm]⟩

theorem formatMapValuePair_total (ctx : Ctx) (recur : RecFn) (V : List Addr) (B : Nat)
    (hvis : ∀ v ind nm s r s', recur v ind nm s = some (r, s') → s'.visiting = s.visiting)
    (hrec : ∀ v ind nm (s : Session), s.visiting = V → vsize v ≤ B →
      ∃ r, recur v ind nm s = some r)
    (k : MapKey) (mv : GoVal) (ind : Nat) (st : Session)
    (hst : st.visiting = V) (hmv : vsize mv ≤ B) :
    ∃ r, formatMapValuePair ctx recur k mv ind st = some r := by
  have hpf : ∀ (names : Bool), ∃ r, pairFmt recur names mv ind st = some r :=
    fun names => pairFmt_total recur V B hvis hrec names mv ind st hst hmv
  cases k with
  | kstr ks =>
      unfold formatMapValuePair
      simp only []
      by_cases ht : isTimeVal mv = true
      · rw [if_pos ht]; exact hpf true
      · rw [if_neg ht]
        by_cases ho : shouldOmitStructName ctx.heap ks mv none = true
        · rw [if_pos ho]
          cases hu : unwrapIface mv with
          | vstruct snm fields =>
              have hfB : ∀ f ∈ fields, vsize f.2.2.2 ≤ B := by
                intro f hf
                have h1 : vsize f.2.2.2 ≤ vsizeFields fields := vsizeFields_mem_le hf
                have h2 : vsize (unwrapIface mv) ≤ vsize mv := vsize_unwrapIface_le mv
                rw [hu] at h2
                simp only [vsize] at h2
                omega
              obtain ⟨⟨sv, st1⟩, h1⟩ :=
                formatStructF_total ctx recur V B hvis hrec snm fields 0 false st hst hfB
              have hst1 : st1.visiting = V :=
                (formatStructF_visiting ctx recur hvis snm fields 0 false st sv st1 h1).trans hst
              obtain ⟨⟨mvs, st2⟩, h2⟩ := formatStructF_total ctx recur V B hvis hrec
                snm fields (ind + 1) false st1 hst1 hfB
              refine ⟨((sv, mvs), st2), ?_⟩
              simp only []
              rw [h1]
              simp only []
              rw [h2]
          | vstr x => exact hpf true
          | vint x => exact hpf true
          | vuint x => exact hpf true
          | vfloat x => exact hpf true
          | vbool x => exact hpf true
          | vtime x => exact hpf true
          | vptr x => exact hpf true
          | vslice x => exact hpf true
          | vmap x => exact hpf true
          | viface x => exact hpf true
          | varray x y => exact hpf true
          | vchan x y => exact hpf true
          | vreadCloser => exact hpf true
        · rw [if_neg ho]; exact hpf true
  | kint n => unfold formatMapValuePair; exact hpf true
  | kuint n => unfold formatMapValuePair; exact hpf true
  | kfloat g => unfold formatMapValuePair; exact hpf true
  | kbool b => unfold formatMapValuePair; exact hpf true
  | kother x y => unfold formatMapValuePair; exact hpf true

theorem formatMapF_total (ctx : Ctx) (recur : RecFn) (V : List Addr) (B : Nat)
    (hvis : ∀ v ind nm s r s', recur v ind nm s = some (r, s') → s'.visiting = s.visiting)
    (hrec : ∀ v ind nm (s : Session), s.visiting = V → vsize v ≤ B →
      ∃ r, recur v ind nm s = some r)
    (entries : List (MapKey × GoVal)) (ind : Nat) (s : Session)
    (hs : s.visiting = V) (hB : ∀ kv ∈ entries, vsize kv.2 ≤ B) :
    ∃ r, formatMapF ctx recur entries ind s = some r := by
  by_cases h0 : entries.length = 0
  · exact ⟨_, by unfold formatMapF; rw [if_pos h0]⟩
  · have hsorted : ∀ kv ∈ sortMapEntries entries, vsize kv.2 ≤ B := by
      intro kv hkv
      simp only [sortMapEntries] at hkv
      exact hB kv ((List.perm_insertionSort _ entries).mem_iff.1 hkv)
    have hstep : ∀ kv ∈ sortMapEntries entries, ∀ st : Session, st.visiting = V →
        ∃ y s', mapEntryLine ctx recur ind kv st = some (y, s') ∧ s'.visiting = V := by
      intro kv hkv st hst
      obtain ⟨⟨pair, st2⟩, hp⟩ := formatMapValuePair_total ctx recur V B hvis hrec
        kv.1 kv.2 ind st hst (hsorted kv hkv)
      have hv2 : st2.visiting = V :=
        (formatMapValuePair_visiting ctx recur hvis kv.1 kv.2 ind st pair st2 hp).trans hst
      exact ⟨_, st2, by unfold mapEntryLine; rw [hp], hv2⟩
    obtain ⟨items, s', hm, -⟩ := mapOptState_total (mapEntryLine ctx recur ind)
      V (sortMapEntries entries) hstep s hs
    exact ⟨_, by unfold formatMapF; rw [if_neg h0, hm]⟩

theorem formatTruncatedSliceParts_total (ctx : Ctx) (recur : RecFn) (V : List Addr)
    (B : Nat)
    (hvis : ∀ v ind nm s r s', recur v ind nm s = some (r, s') → s'.visiting = s.visiting)
    (hrec : ∀ v ind nm (s : Session), s.visiting = V → vsize v ≤ B →
      ∃ r, recur v ind nm s = some r)
    (elems : List GoVal) (ind total : Nat) (s : Session)
    (hs : s.visiting = V) (hB : ∀ e ∈ elems, vsize e ≤ B) :
    ∃ r, formatTruncatedSliceParts ctx recur elems ind total s = some r := by
  have hstep : ∀ (sub : List GoVal), (∀ e ∈ sub, e ∈ elems) →
      ∀ e ∈ sub, ∀ st : Session, st.visiting = V →
      ∃ y s', elemLine recur (ind + 1) e st = some (y, s') ∧ s'.visiting = V := by
    intro sub hsub e he st hst
    obtain ⟨⟨y, s'⟩, hy⟩ := elemLine_total recur V B hrec (ind + 1) e st hst
      (hB e (hsub e he))
    exact ⟨y, s', hy, (elemLine_visiting recur hvis (ind + 1) e st y s' hy).trans hst⟩
  obtain ⟨lead, s1, h1, hs1⟩ := mapOptState_total (elemLine recur (ind + 1)) V
    (elems.take (min (max (ctx.p.maxSliceLength / 2).toNat 1) total))
    (hstep _ (fun e he => List.take_subset _ _ he)) s hs
  obtain ⟨tail, s2, h2, -⟩ := mapOptState_total (elemLine recur (ind + 1)) V
    (elems.drop (max (total - max (ctx.p.maxSliceLength / 2).toNat 1)
      (max (ctx.p.maxSliceLength / 2).toNat 1)))
    (hstep _ (fun e he => List.drop_subset _ _ he)) s1 hs1
  exact ⟨_, by
    unfold formatTruncatedSliceParts
    simp only []
    rw [h1]
    simp only []
    rw [h2]⟩

theorem formatTruncatedSliceF_total (ctx : Ctx) (recur : RecFn) (V : List Addr)
    (B : Nat)
    (hvis : ∀ v ind nm s r s', recur v ind nm s = some (r, s') → s'.visiting = s.visiting)
    (hrec : ∀ v ind nm (s : Session), s.visiting = V → vsize v ≤ B →
      ∃ r, recur v ind nm s = some r)
    (elems : List GoVal) (ind total : Nat) (s : Session)
    (hs : s.visiting = V) (hB : ∀ e ∈ elems, vsize e ≤ B) :
    ∃ r, formatTruncatedSliceF ctx recur elems ind total s = some r := by
  obtain ⟨⟨parts, s1⟩, h1⟩ :=
    formatTruncatedSliceParts_total ctx recur V B hvis hrec elems ind total s hs hB
  exact ⟨_, by unfold formatTruncatedSliceF; rw [h1]⟩

theorem formatSliceF_total (ctx : Ctx) (recur : RecFn) (V : List Addr) (B : Nat)
    (hvis : ∀ v ind nm s r s', recur v ind nm s = some (r, s') → s'.visiting = s.visiting)
    (hrec : ∀ v ind nm (s : Session), s.visiting = V → vsize v ≤ B →
      ∃ r, recur v ind nm s = some r)
    (elems : List GoVal) (ind : Nat) (s : Session)
    (hs : s.visiting = V) (hB : ∀ e ∈ elems, vsize e ≤ B) :
    ∃ r, formatSliceF ctx recur elems ind s = some r := by
  by_cases h0 : elems.length = 0
  · exact ⟨_, by unfold formatSliceF; rw [if_pos h0]⟩
  · by_cases htr : ctx.p.maxSliceLength > 0 ∧ (elems.length : Int) > ctx.p.maxSliceLength
    · obtain ⟨r, hr⟩ := formatTruncatedSliceF_total ctx recur V B hvis hrec elems ind
        elems.length s hs hB
      exact ⟨r, by unfold formatSliceF; rw [if_neg h0, if_pos htr]; exact hr⟩
    · have hstep : ∀ e ∈ elems, ∀ st : Session, st.visiting = V →
          ∃ y s', pairFmt recur true e ind st = some (y, s') ∧ s'.visiting = V := by
        intro e he st hst
        obtain ⟨⟨y, s'⟩, hy⟩ := pairFmt_total recur V B hvis hrec true e ind st hst (hB e he)
        exact ⟨y, s', hy, (pairFmt_visiting recur hvis true e ind st y s' hy).trans hst⟩
      obtain ⟨items, s', hm, -⟩ := mapOptState_total
        (fun e st => pairFmt recur true e ind st) V elems hstep s hs
      exact ⟨_, by unfold formatSliceF; rw [if_neg h0, if_neg htr, hm]⟩

theorem formatBody_total (ctx : Ctx)
    (hjp : ∀ str pv, ctx.jsonParse str = some pv → vsize pv < vsize (GoVal.vstr str))
    (recur : RecFn) (V : List Addr) (B : Nat)
    (hvis : ∀ v ind nm s r s', recur v ind nm s = some (r, s') → s'.visiting = s.visiting)
    (hrec : ∀ v ind nm (s : Session), s.visiting = V → vsize v ≤ B →
      ∃ r, recur v ind nm s = some r)
    (v : GoVal) (ind : Nat) (nm : Bool) (s : Session) (hs : s.visiting = V)
    (hv1 : vsize v ≤ B + 1)
    (hv2 : ∀ a cell, refAddr v = some a → heapLookup ctx.heap a = some cell →
      cellWeight cell ≤ B + 1) :
    ∃ r, formatBody ctx recur v ind nm s = some r := by
  cases v with
  | vstr str =>
      unfold formatBody
      simp only []
      by_cases hu : isUUIDString str = true
      · rw [if_pos hu]; exact ⟨_, rfl⟩
      · rw [if_neg hu]
        by_cases hq : quickJSONCheck str = true
        · rw [if_pos hq]
          cases hjs : ctx.jsonParse str with
          | none => exact ⟨_, rfl⟩
          | some parsed =>
              simp only []
              have hlt := hjp str parsed hjs
              have hvb : vsize parsed ≤ B := by
                simp only [vsize] at hlt hv1
                omega
              obtain ⟨⟨ps, s'⟩, hp⟩ := hrec parsed ind true s hs hvb
              rw [hp]
              exact ⟨_, rfl⟩
        · rw [if_neg hq]; exact ⟨_, rfl⟩
  | vint n => exact ⟨_, rfl⟩
  | vuint n => exact ⟨_, rfl⟩
  | vfloat g => exact ⟨_, rfl⟩
  | vbool b => exact ⟨_, rfl⟩
  | vtime t => exact ⟨_, rfl⟩
  | vchan d t => exact ⟨_, rfl⟩
  | vreadCloser => exact ⟨_, rfl⟩
  | vptr o =>
      cases o with
      | none => exact ⟨_, rfl⟩
      | some a =>
          unfold formatBody
          simp only []
          cases hl : heapLookup ctx.heap a with
          | none => exact ⟨_, rfl⟩
          | some cell =>
              cases cell with
              | cslice b es => exact ⟨_, rfl⟩
              | cmap es => exact ⟨_, rfl⟩
              | cptr pv =>
                  have hc := hv2 a (.cptr pv) rfl hl
                  simp only [cellWeight] at hc
                  obtain ⟨⟨r, s'⟩, hr⟩ := hrec pv ind nm s hs (by omega)
                  simp only []
                  rw [hr]
                  exact ⟨_, rfl⟩
  | viface o =>
      cases o with
      | none => exact ⟨_, rfl⟩
      | some iv =>
          unfold formatBody
          simp only []
          have hvb : vsize iv ≤ B := by simp only [vsize] at hv1; omega
          obtain ⟨⟨r, s'⟩, hr⟩ := hrec iv ind nm s hs hvb
          rw [hr]
          exact ⟨_, rfl⟩
  | vslice o =>
      cases o with
      | none => exact ⟨_, rfl⟩
      | some a =>
          unfold formatBody
          simp only []
          cases hl : heapLookup ctx.heap a with
          | none => exact ⟨_, rfl⟩
          | some cell =>
              cases cell with
              | cptr pv => exact ⟨_, rfl⟩
              | cmap es => exact ⟨_, rfl⟩
              | cslice isB es =>
                  simp only []
                  cases hub : tryFormatAsUUIDBytes isB es with
                  | some u => exact ⟨_, rfl⟩
                  | none =>
                      have hc := hv2 a (.cslice isB es) rfl hl
                      simp only [cellWeight] at hc
                      have hB2 : ∀ e ∈ es, vsize e ≤ B := by
                        intro e he
                        have := vsizeList_mem_le he
                        omega
                      obtain ⟨⟨r, s'⟩, hr⟩ :=
                        formatSliceF_total ctx recur V B hvis hrec es ind s hs hB2
                      rw [hr]
                      exact ⟨_, rfl⟩
  | vmap o =>
      cases o with
      | none => exact ⟨_, rfl⟩
      | some a =>
          unfold formatBody
          simp only []
          cases hl : heapLookup ctx.heap a with
          | none => exact ⟨_, rfl⟩
          | some cell =>
              cases cell with
              | cptr pv => exact ⟨_, rfl⟩
              | cslice isB es => exact ⟨_, rfl⟩
              | cmap entries =>
                  have hc := hv2 a (.cmap entries) rfl hl
                  simp only [cellWeight] at hc
                  have hB2 : ∀ kv ∈ entries, vsize kv.2 ≤ B := by
                    intro kv hkv
                    have := vsizeEntries_mem_le hkv
                    omega
                  obtain ⟨⟨r, s'⟩, hr⟩ :=
                    formatMapF_total ctx recur V B hvis hrec entries ind s hs hB2
                  simp only []
                  rw [hr]
                  exact ⟨_, rfl⟩
  | varray isB es =>
      unfold formatBody
      simp only []
      cases hub : tryFormatAsUUIDBytes isB es with
      | some u => exact ⟨_, rfl⟩
      | none =>
          have hB2 : ∀ e ∈ es, vsize e ≤ B := by
            intro e he
            have h1 := vsizeList_mem_le he
            simp only [vsize] at hv1
            omega
          obtain ⟨⟨r, s'⟩, hr⟩ := formatSliceF_total ctx recur V B hvis hrec es ind s hs hB2
          rw [hr]
          exact ⟨_, rfl⟩
  | vstruct snm fields =>
      unfold formatBody
      simp only []
      have hB2 : ∀ f ∈ fields, vsize f.2.2.2 ≤ B := by
        intro f hf
        have h1 := vsizeFields_mem_le hf
        simp only [vsize] at hv1
        omega
      obtain ⟨⟨r, s'⟩, hr⟩ :=
        formatStructF_total ctx recur V B hvis hrec snm fields ind nm s hs hB2
      rw [hr]
      exact ⟨_, rfl⟩

theorem formatF_total (ctx : Ctx)
    (hjp : ∀ str pv, ctx.jsonParse str = some pv → vsize pv < vsize (GoVal.vstr str)) :
    ∀ (fuel : Nat) (v : GoVal) (ind : Nat) (nm : Bool) (s : Session),
      measureM ctx.heap s.visiting v ≤ fuel →
      ∃ r, formatF ctx fuel v ind nm s = some r := by
  intro fuel
  induction fuel with
  | zero =>
      intro v ind nm s hm
      exact absurd hm (Nat.not_succ_le_zero _)
  | succ fuel ih =>
      intro v ind nm s hm
      unfold measureM at hm
      have hvisF : ∀ v ind nm s r s', formatF ctx fuel v ind nm s = some (r, s') →
          s'.visiting = s.visiting :=
        fun v ind nm s r s' h => formatF_visiting ctx fuel v ind nm s r s' h
      show ∃ r, (match refAddr v with
        | some a =>
            if a ∈ s.visiting then
              some ("→" ++ formatCyclePointer a, markCycled a s)
            else
              match formatBody ctx (formatF ctx fuel) v ind nm
                  { s with visiting := a :: s.visiting } with
              | none => none
              | some (str, skipTag, s2) =>
                  some (if !skipTag ∧ a ∈ s2.cycled then str ++ formatCyclePointer a
                    else str, { s2 with visiting := s2.visiting.erase a })
        | none =>
            match formatBody ctx (formatF ctx fuel) v ind nm s with
            | some (str, _, s2) => some (str, s2)
            | none => none) = some r
      cases hra : refAddr v with
      | some a =>
          simp only []
          by_cases hmem : a ∈ s.visiting
          · rw [if_pos hmem]
            exact ⟨_, rfl⟩
          · rw [if_neg hmem]
            have hshape : v = .vptr (some a) ∨ v = .vslice (some a) ∨ v = .vmap (some a) := by
              cases v with
              | vptr o =>
                  cases o with
                  | none => cases hra
                  | some b => exact Or.inl (by rw [Option.some.inj hra])
              | vslice o =>
                  cases o with
                  | none => cases hra
                  | some b => exact Or.inr (Or.inl (by rw [Option.some.inj hra]))
              | vmap o =>
                  cases o with
                  | none => cases hra
                  | some b => exact Or.inr (Or.inr (by rw [Option.some.inj hra]))
              | vstr x => cases hra
              | vint x => cases hra
              | vuint x => cases hra
              | vfloat x => cases hra
              | vbool x => cases hra
              | vtime x => cases hra
              | viface x => cases hra
              | vstruct x y => cases hra
              | varray x y => cases hra
              | vchan x y => cases hra
              | vreadCloser => cases hra
            have hvone : vsize v = 1 := by
              rcases hshape with h | h | h <;> (subst h; rfl)
            cases hl : heapLookup ctx.heap a with
            | none =>
                have hb : formatBody ctx (formatF ctx fuel) v ind nm
                    { s with visiting := a :: s.visiting } =
                    some ("invalid", false, { s with visiting := a :: s.visiting }) := by
                  rcases hshape with h | h | h <;> (subst h; unfold formatBody; simp only []; rw [hl])
                rw [hb]
                exact ⟨_, rfl⟩
            | some cell =>
                have ha : a ∈ heapAddrsD ctx.heap := heapLookup_addrsD hl
                have hlt : unvisited ctx.heap (a :: s.visiting) < unvisited ctx.heap s.visiting :=
                  unvisited_cons_lt ha hmem
                have hrec : ∀ v2 ind2 nm2 (s2 : Session), s2.visiting = a :: s.visiting →
                    vsize v2 ≤ heapWeight ctx.heap →
                    ∃ r, formatF ctx fuel v2 ind2 nm2 s2 = some r := by
                  intro v2 ind2 nm2 s2 hs2 hv2
                  apply ih
                  unfold measureM
                  rw [hs2]
                  have h3 : 1 ≤ vsize v := vsize_pos v
                  have hK : vsize v2 + 1 ≤ bigK ctx.heap := by unfold bigK; omega
                  have h4 : (unvisited ctx.heap (a :: s.visiting) + 1) * bigK ctx.heap ≤
                      unvisited ctx.heap s.visiting * bigK ctx.heap :=
                    Nat.mul_le_mul_right _ hlt
                  rw [add_one_mul] at h4
                  generalize hA : unvisited ctx.heap (a :: s.visiting) * bigK ctx.heap = A at h4 ⊢
                  generalize hC : unvisited ctx.heap s.visiting * bigK ctx.heap = C at h4 hm
                  omega
                have hv1 : vsize v ≤ heapWeight ctx.heap + 1 := by omega
                have hv2 : ∀ b cell2, refAddr v = some b →
                    heapLookup ctx.heap b = some cell2 →
                    cellWeight cell2 ≤ heapWeight ctx.heap + 1 := by
                  intro b cell2 h1 h2
                  rw [hra, Option.some.injEq] at h1
                  subst h1
                  rw [hl, Option.some.injEq] at h2
                  subst h2
                  exact le_trans (cellWeight_le_heapWeight hl) (Nat.le_succ _)
                obtain ⟨⟨bs, bsk, s2⟩, hb⟩ := formatBody_total ctx hjp (formatF ctx fuel)
                  (a :: s.visiting) (heapWeight ctx.heap) hvisF hrec v ind nm
                  { s with visiting := a :: s.visiting } rfl hv1 hv2
                rw [hb]
                exact ⟨_, rfl⟩
      | none =>
          simp only []
          have hrec : ∀ v2 ind2 nm2 (s2 : Session), s2.visiting = s.visiting →
              vsize v2 ≤ vsize v - 1 →
              ∃ r, formatF ctx fuel v2 ind2 nm2 s2 = some r := by
            intro v2 ind2 nm2 s2 hs2 hv2
            apply ih
            unfold measureM
            rw [hs2]
            have h3 : 1 ≤ vsize v := vsize_pos v
            generalize hC : unvisited ctx.heap s.visiting * bigK ctx.heap = C at hm ⊢
            omega
          have hv1 : vsize v ≤ (vsize v - 1) + 1 := by
            have := vsize_pos v
            omega
          have hv2 : ∀ b cell2, refAddr v = some b →
              heapLookup ctx.heap b = some cell2 →
              cellWeight cell2 ≤ (vsize v - 1) + 1 := by
            intro b cell2 h1 h2
            rw [hra] at h1
            cases h1
          obtain ⟨⟨bs, bsk, s2⟩, hb⟩ := formatBody_total ctx hjp (formatF ctx fuel)
            s.visiting (vsize v - 1) hvisF hrec v ind nm s rfl hv1 hv2
          rw [hb]
          exact ⟨_, rfl⟩

theorem formatF_backedge (ctx : Ctx) (fuel : Nat) (v : GoVal) (a : Addr) (ind : Nat)
    (nm : Bool) (s : Session) (hra : refAddr v = some a) (hmem : a ∈ s.visiting) :
    formatF ctx (fuel + 1) v ind nm s =
      some ("→" ++ formatCyclePointer a, markCycled a s) := by
  show (match refAddr v with
    | some a =>
        if a ∈ s.visiting then
          some ("→" ++ formatCyclePointer a, markCycled a s)
        else
          match formatBody ctx (formatF ctx fuel) v ind nm
              { s with visiting := a :: s.visiting } with
          | none => none
          | some (str, skipTag, s2) =>
              some (if !skipTag ∧ a ∈ s2.cycled then str ++ formatCyclePointer a
                else str, { s2 with visiting := s2.visiting.erase a })
    | none =>
        match formatBody ctx (formatF ctx fuel) v ind nm s with
        | some (str, _, s2) => some (str, s2)
        | none => none) = some ("→" ++ formatCyclePointer a, markCycled a s)
  rw [hra]
  simp only []
  rw [if_pos hmem]

theorem formatF_exit (ctx : Ctx) (fuel : Nat) (v : GoVal) (a : Addr) (ind : Nat)
    (nm : Bool) (s : Session) (str : String) (skip : Bool) (s2 : Session)
    (hra : refAddr v = some a) (hmem : a ∉ s.visiting)
    (hb : formatBody ctx (formatF ctx fuel) v ind nm
      { s with visiting := a :: s.visiting } = some (str, skip, s2)) :
    formatF ctx (fuel + 1) v ind nm s =
      some (if !skip ∧ a ∈ s2.cycled then str ++ formatCyclePointer a else str,
        { s2 with visiting := s2.visiting.erase a }) := by
  show (match refAddr v with
    | some a =>
        if a ∈ s.visiting then
          some ("→" ++ formatCyclePointer a, markCycled a s)
        else
          match formatBody ctx (formatF ctx fuel) v ind nm
              { s with visiting := a :: s.visiting } with
          | none => none
          | some (str, skipTag, s2) =>
              some (if !skipTag ∧ a ∈ s2.cycled then str ++ formatCyclePointer a
                else str, { s2 with visiting := s2.visiting.erase a })
    | none =>
        match formatBody ctx (formatF ctx fuel) v ind nm s with
        | some (str, _, s2) => some (str, s2)
        | none => none) = _
  rw [hra]
  simp only []
  rw [if_neg hmem, hb]

/-- **C1** — cycle safety: (1) with the fuel `Print` supplies, formatting any
value over any heap succeeds (terminates with a string) whenever the JSON
oracle only returns values smaller than the string they were parsed from;
(2) reaching a reference identity already in `visiting` marks it cycled and
immediately returns the arrow-plus-tag back-reference token without
descending; (3) every successful frame restores `visiting` to its entry
value; (4) on the normal path the identity is pushed for the body and erased
on exit, and the first-seen node is appended with exactly the tag of its
back-reference when the body marked it cycled (UUID fast path excepted);
(5)-(6) a self-cycle and a two-pointer mutual cycle each render with exactly
one arrow back-reference whose tag also suffixes the defining node. -/
theorem c1_cycle_safety :
    (∀ (p : Printer) (heap : Heap) (now : Int) (jp : String → Option GoVal),
        (∀ str pv, jp str = some pv → vsize pv < vsize (GoVal.vstr str)) →
        ∀ v : GoVal,
        ∃ r, formatF ⟨p, heap, now, jp⟩ (printFuel heap v) v 0 true ⟨[], []⟩ = some r)
    ∧ (∀ (ctx : Ctx) (fuel : Nat) (v : GoVal) (a : Addr) (ind : Nat) (nm : Bool)
        (s : Session), refAddr v = some a → a ∈ s.visiting →
        formatF ctx (fuel + 1) v ind nm s =
          some ("→" ++ formatCyclePointer a, markCycled a s) ∧
        a ∈ (markCycled a s).cycled ∧ (markCycled a s).visiting = s.visiting)
    ∧ (∀ (ctx : Ctx) (fuel : Nat) (v : GoVal) (ind : Nat) (nm : Bool) (s : Session)
        (r : String) (s' : Session), formatF ctx fuel v ind nm s = some (r, s') →
        s'.visiting = s.visiting)
    ∧ (∀ (ctx : Ctx) (fuel : Nat) (v : GoVal) (a : Addr) (ind : Nat) (nm : Bool)
        (s : Session) (str : String) (skip : Bool) (s2 : Session),
        refAddr v = some a → a ∉ s.visiting →
        formatBody ctx (formatF ctx fuel) v ind nm
          { s with visiting := a :: s.visiting } = some (str, skip, s2) →
        formatF ctx (fuel + 1) v ind nm s =
          some (if !skip ∧ a ∈ s2.cycled then str ++ formatCyclePointer a else str,
            { s2 with visiting := s2.visiting.erase a }))
    ∧ (printGo defaultPrinter selfCycleHeap 0 noJson (some (.vptr (some 1))) =
        "→" ++ formatCyclePointer 1 ++ formatCyclePointer 1 ∧
       countChar '→' (printGo defaultPrinter selfCycleHeap 0 noJson
         (some (.vptr (some 1)))) = 1)
    ∧ (printGo defaultPrinter mutualCycleHeap 0 noJson (some (.vptr (some 1))) =
        "→" ++ formatCyclePointer 1 ++ formatCyclePointer 1 ∧
       countChar '→' (printGo defaultPrinter mutualCycleHeap 0 noJson
         (some (.vptr (some 1)))) = 1) := by
  refine ⟨?_, ?_, ?_, ?_, ⟨?_, ?_⟩, ⟨?_, ?_⟩⟩
  · intro p heap now jp hjp v
    exact formatF_total ⟨p, heap, now, jp⟩ hjp (printFuel heap v) v 0 true ⟨[], []⟩
      (le_refl _)
  · intro ctx fuel v a ind nm s hra hmem
    refine ⟨formatF_backedge ctx fuel v a ind nm s hra hmem, ?_, ?_⟩
    · unfold markCycled
      split
      · next h => exact h
      · exact List.mem_cons_self a _
    · unfold markCycled
      split <;> rfl
  · intro ctx fuel v ind nm s r s' h
    exact formatF_visiting ctx fuel v ind nm s r s' h
  · intro ctx fuel v a ind nm s str skip s2 hra hmem hb
    exact formatF_exit ctx fuel v a ind nm s str skip s2 hra hmem hb
  · decide
  · decide
  · decide
  · decide

theorem c1_cycle_safety_witness :
    (∃ r, formatF ⟨defaultPrinter, selfCycleHeap, 0, noJson⟩
        (printFuel selfCycleHeap (GoVal.vptr (some 1))) (GoVal.vptr (some 1)) 0 true
        ⟨[], []⟩ = some r) ∧
    formatF ⟨defaultPrinter, selfCycleHeap, 0, noJson⟩ 1 (GoVal.vptr (some 1)) 0 true
        ⟨[1], []⟩ = some ("→" ++ formatCyclePointer 1, markCycled 1 ⟨[1], []⟩) :=
  ⟨c1_cycle_safety.1 defaultPrinter selfCycleHeap 0 noJson
      (fun str pv h => absurd h (by simp [noJson])) (GoVal.vptr (some 1)),
   (c1_cycle_safety.2.1 ⟨defaultPrinter, selfCycleHeap, 0, noJson⟩ 0 (GoVal.vptr (some 1))
      1 0 true ⟨[1], []⟩ rfl (by decide)).1⟩


end Pretty
